import Mathlib

/-!
Verification of the HTML transformation pipeline of the
`typedoc-plugin-mermaid2` plugin (`src/index.ts`).

Strings are modelled as `List Char`.  JavaScript's
`String.prototype.replace` with a global literal pattern is modelled by
`replaceAll`: a left-to-right, non-overlapping scan that does not rescan
replacement text.  The block-matching regular expression

  `<pre><code class="mermaid">([\s\S]*?)<\/code><button[^>]*>Copy<\/button><\/pre>`

is modelled by `findBlockEnd` (lazy capture group followed by the greedy
attribute run) and `transformMermaidBlocks` (the global scan).
-/

set_option maxRecDepth 100000

namespace TypedocMermaid

/-! ### Generic list-of-characters machinery -/

/-- Fuel-indexed worker for `replaceAll`.  The fuel argument makes the
recursion structural (each matched occurrence removes at least one
character, so fuel equal to the length of the text always suffices);
`replaceAllAux_congr` shows the fuel is irrelevant once sufficient. -/
def replaceAllAux (pat rep : List Char) : Nat → List Char → List Char
  | _, [] => []
  | 0, s => s
  | fuel + 1, c :: rest =>
    if pat ≠ [] ∧ pat.isPrefixOf (c :: rest) then
      rep ++ replaceAllAux pat rep fuel ((c :: rest).drop pat.length)
    else
      c :: replaceAllAux pat rep fuel rest

/-- One global literal-pattern replacement pass, exactly as JavaScript's
`str.replace(/pat/g, rep)` behaves for a non-empty literal pattern:
scan left to right, replace each non-overlapping leftmost occurrence,
and continue after the replacement without rescanning it. -/
def replaceAll (pat rep s : List Char) : List Char :=
  replaceAllAux pat rep s.length s

/-- The result of `replaceAllAux` does not depend on the fuel so long
as the fuel covers the length of the text. -/
theorem replaceAllAux_congr (pat rep : List Char) :
    ∀ (n : Nat) (s : List Char) (f₁ f₂ : Nat), s.length ≤ n →
      s.length ≤ f₁ → s.length ≤ f₂ →
      replaceAllAux pat rep f₁ s = replaceAllAux pat rep f₂ s := by
  intro n
  induction n with
  | zero =>
    intro s f₁ f₂ hn _ _
    have : s = [] := List.length_eq_zero.mp (Nat.le_zero.mp hn)
    subst this
    cases f₁ <;> cases f₂ <;> rfl
  | succ n ih =>
    intro s f₁ f₂ hn h1 h2
    cases s with
    | nil => cases f₁ <;> cases f₂ <;> rfl
    | cons c rest =>
      simp only [List.length_cons] at hn h1 h2
      cases f₁ with
      | zero => omega
      | succ g₁ =>
        cases f₂ with
        | zero => omega
        | succ g₂ =>
          show (if pat ≠ [] ∧ pat.isPrefixOf (c :: rest) then
              rep ++ replaceAllAux pat rep g₁ ((c :: rest).drop pat.length)
            else c :: replaceAllAux pat rep g₁ rest)
            = (if pat ≠ [] ∧ pat.isPrefixOf (c :: rest) then
              rep ++ replaceAllAux pat rep g₂ ((c :: rest).drop pat.length)
            else c :: replaceAllAux pat rep g₂ rest)
          by_cases hc : pat ≠ [] ∧ pat.isPrefixOf (c :: rest)
          · rw [if_pos hc, if_pos hc]
            have hplen : 1 ≤ pat.length := by
              cases pat with
              | nil => exact absurd rfl hc.1
              | cons a l => simp
            have hlen : ((c :: rest).drop pat.length).length ≤ n := by
              simp only [List.length_drop, List.length_cons]
              omega
            have hlen1 : ((c :: rest).drop pat.length).length ≤ g₁ := by
              simp only [List.length_drop, List.length_cons]
              omega
            have hlen2 : ((c :: rest).drop pat.length).length ≤ g₂ := by
              simp only [List.length_drop, List.length_cons]
              omega
            rw [ih _ g₁ g₂ hlen hlen1 hlen2]
          · rw [if_neg hc, if_neg hc]
            rw [ih rest g₁ g₂ (by omega) (by omega) (by omega)]

/-- Unfolding: `replaceAll` on the empty text. -/
theorem replaceAll_nil (pat rep : List Char) : replaceAll pat rep [] = [] := rfl

/-- Unfolding: a match at the head is replaced and the scan continues
after the matched occurrence. -/
theorem replaceAll_cons_match (pat rep : List Char) (c : Char) (rest : List Char)
    (h1 : pat ≠ []) (h2 : pat.isPrefixOf (c :: rest)) :
    replaceAll pat rep (c :: rest)
      = rep ++ replaceAll pat rep ((c :: rest).drop pat.length) := by
  show replaceAllAux pat rep (rest.length + 1) (c :: rest) = _
  show (if pat ≠ [] ∧ pat.isPrefixOf (c :: rest) then
      rep ++ replaceAllAux pat rep rest.length ((c :: rest).drop pat.length)
    else c :: replaceAllAux pat rep rest.length rest) = _
  rw [if_pos ⟨h1, h2⟩]
  have hplen : 1 ≤ pat.length := by
    cases pat with
    | nil => exact absurd rfl h1
    | cons a l => simp
  congr 1
  exact replaceAllAux_congr pat rep rest.length _ _ _
    (by simp only [List.length_drop, List.length_cons]; omega)
    (by simp only [List.length_drop, List.length_cons]; omega)
    (le_refl _)

/-- Unfolding: if the pattern does not match at the head, the head
character is kept and the scan moves on by one character. -/
theorem replaceAll_cons_skip (pat rep : List Char) (c : Char) (rest : List Char)
    (h : ¬ (pat ≠ [] ∧ pat.isPrefixOf (c :: rest))) :
    replaceAll pat rep (c :: rest) = c :: replaceAll pat rep rest := by
  show (if pat ≠ [] ∧ pat.isPrefixOf (c :: rest) then
      rep ++ replaceAllAux pat rep rest.length ((c :: rest).drop pat.length)
    else c :: replaceAllAux pat rep rest.length rest) = _
  rw [if_neg h]
  rfl

/-- Concatenation of the images of each character under `f`. -/
def concatMap (f : Char → List Char) : List Char → List Char
  | [] => []
  | c :: s => f c ++ concatMap f s

/-- Substring test, as JavaScript's `String.prototype.includes`. -/
def containsSub (pat : List Char) : List Char → Bool
  | [] => pat.isEmpty
  | c :: rest => pat.isPrefixOf (c :: rest) || containsSub pat rest

/-- Fuel-indexed worker for `countSub`. -/
def countSubAux (pat : List Char) : Nat → List Char → Nat
  | _, [] => 0
  | 0, _ => 0
  | fuel + 1, c :: rest =>
    if pat ≠ [] ∧ pat.isPrefixOf (c :: rest) then
      1 + countSubAux pat fuel ((c :: rest).drop pat.length)
    else
      countSubAux pat fuel rest

/-- Number of non-overlapping leftmost occurrences of `pat`,
counted by the same scan that `replaceAll` performs. -/
def countSub (pat s : List Char) : Nat :=
  countSubAux pat s.length s

/-- The result of `countSubAux` does not depend on the fuel so long as
the fuel covers the length of the text. -/
theorem countSubAux_congr (pat : List Char) :
    ∀ (n : Nat) (s : List Char) (f₁ f₂ : Nat), s.length ≤ n →
      s.length ≤ f₁ → s.length ≤ f₂ →
      countSubAux pat f₁ s = countSubAux pat f₂ s := by
  intro n
  induction n with
  | zero =>
    intro s f₁ f₂ hn _ _
    have : s = [] := List.length_eq_zero.mp (Nat.le_zero.mp hn)
    subst this
    cases f₁ <;> cases f₂ <;> rfl
  | succ n ih =>
    intro s f₁ f₂ hn h1 h2
    cases s with
    | nil => cases f₁ <;> cases f₂ <;> rfl
    | cons c rest =>
      simp only [List.length_cons] at hn h1 h2
      cases f₁ with
      | zero => omega
      | succ g₁ =>
        cases f₂ with
        | zero => omega
        | succ g₂ =>
          show (if pat ≠ [] ∧ pat.isPrefixOf (c :: rest) then
              1 + countSubAux pat g₁ ((c :: rest).drop pat.length)
            else countSubAux pat g₁ rest)
            = (if pat ≠ [] ∧ pat.isPrefixOf (c :: rest) then
              1 + countSubAux pat g₂ ((c :: rest).drop pat.length)
            else countSubAux pat g₂ rest)
          by_cases hc : pat ≠ [] ∧ pat.isPrefixOf (c :: rest)
          · rw [if_pos hc, if_pos hc]
            have hplen : 1 ≤ pat.length := by
              cases pat with
              | nil => exact absurd rfl hc.1
              | cons a l => simp
            rw [ih ((c :: rest).drop pat.length) g₁ g₂
              (by simp only [List.length_drop, List.length_cons]; omega)
              (by simp only [List.length_drop, List.length_cons]; omega)
              (by simp only [List.length_drop, List.length_cons]; omega)]
          · rw [if_neg hc, if_neg hc]
            rw [ih rest g₁ g₂ (by omega) (by omega) (by omega)]

/-- Unfolding: `countSub` on the empty text. -/
theorem countSub_nil (pat : List Char) : countSub pat [] = 0 := rfl

/-- Unfolding: a match at the head counts once and the scan continues
after the matched occurrence. -/
theorem countSub_cons_match (pat : List Char) (c : Char) (rest : List Char)
    (h1 : pat ≠ []) (h2 : pat.isPrefixOf (c :: rest)) :
    countSub pat (c :: rest) = 1 + countSub pat ((c :: rest).drop pat.length) := by
  show (if pat ≠ [] ∧ pat.isPrefixOf (c :: rest) then
      1 + countSubAux pat rest.length ((c :: rest).drop pat.length)
    else countSubAux pat rest.length rest) = _
  rw [if_pos ⟨h1, h2⟩]
  have hplen : 1 ≤ pat.length := by
    cases pat with
    | nil => exact absurd rfl h1
    | cons a l => simp
  congr 1
  exact countSubAux_congr pat rest.length _ _ _
    (by simp only [List.length_drop, List.length_cons]; omega)
    (by simp only [List.length_drop, List.length_cons]; omega)
    (le_refl _)

/-- Unfolding: no match at the head. -/
theorem countSub_cons_skip (pat : List Char) (c : Char) (rest : List Char)
    (h : ¬ (pat ≠ [] ∧ pat.isPrefixOf (c :: rest))) :
    countSub pat (c :: rest) = countSub pat rest := by
  show (if pat ≠ [] ∧ pat.isPrefixOf (c :: rest) then
      1 + countSubAux pat rest.length ((c :: rest).drop pat.length)
    else countSubAux pat rest.length rest) = _
  rw [if_neg h]
  rfl

/-- Index of the first occurrence of `pat`, as JavaScript's `indexOf`
(`none` replaces `-1`). -/
def firstIdx (pat : List Char) : List Char → Option Nat
  | [] => if pat.isEmpty then some 0 else none
  | c :: rest =>
    if pat.isPrefixOf (c :: rest) then some 0
    else (firstIdx pat rest).map (· + 1)

/-- Index of the last occurrence of `pat`, as JavaScript's `lastIndexOf`
(`none` replaces `-1`). -/
def lastIdx (pat : List Char) : List Char → Option Nat
  | [] => if pat.isEmpty then some 0 else none
  | c :: rest =>
    match lastIdx pat rest with
    | some j => some (j + 1)
    | none => if pat.isPrefixOf (c :: rest) then some 0 else none

/-- ECMAScript whitespace as trimmed by `String.prototype.trim`
(WhiteSpace and LineTerminator code points). -/
def isJsWhitespace (c : Char) : Bool :=
  c == ' ' || c == '\t' || c == '\n' || c == '\r' || c == '\x0b' || c == '\x0c'
    || c == ' ' || c == ' ' || (' ' ≤ c && c ≤ ' ')
    || c == ' ' || c == ' ' || c == ' ' || c == ' '
    || c == '　' || c == '﻿'

/-- Remove trailing JavaScript whitespace. -/
def trimEnd (s : List Char) : List Char :=
  (s.reverse.dropWhile isJsWhitespace).reverse

/-- JavaScript's `String.prototype.trim`. -/
def trim (s : List Char) : List Char :=
  trimEnd (s.dropWhile isJsWhitespace)

/-! ### Constants of `src/index.ts` -/

/-- Name of the mermaid ESM entry point file. -/
def MERMAID_ESM_ENTRY : List Char := "mermaid.esm.min.mjs".data

/-- Default CDN URL for loading the Mermaid library. -/
def DEFAULT_CDN_URL : List Char :=
  "https://unpkg.com/mermaid@latest/dist/mermaid.esm.min.mjs".data

/-- Opening tag of the wrapper emitted for each rewritten diagram block. -/
def MERMAID_BLOCK_START : List Char := "<div class=\"mermaid-block\">".data

/-- Closing tag of the wrapper. -/
def MERMAID_BLOCK_END : List Char := "</div>".data

/-- The literal head of the block-matching pattern. -/
def PRE_MERMAID : List Char := "<pre><code class=\"mermaid\">".data

/-- The literal separator after the lazy capture group:
the close of the code element and the open of the copy button. -/
def SEP_BTN : List Char := "</code><button".data

/-- The literal tail after the greedy `[^>]*` attribute run. -/
def TAILQ : List Char := ">Copy</button></pre>".data

/-- The injected stylesheet (`style` in the source). -/
def styleText : List Char :=
  "\n<style>\n/* Contain mermaid blocks */\n.mermaid-block \x7b\n  overflow-x: auto;\n  max-width: 100%;\n\x7d\n\n.mermaid-block > .mermaid \x7b\n  max-width: 100%;\n\x7d\n\n.mermaid-block svg \x7b\n  max-width: 100%;\n  height: auto;\n\x7d\n\n/* Hide fallback pre when mermaid is enabled */\n:root.mermaid-enabled .mermaid-block > pre \x7b\n  display: none;\n\x7d\n\n/* Hide mermaid divs until JS reveals the correct one (visibility allows rendering) */\n.mermaid-block > .mermaid \x7b\n  visibility: hidden;\n  position: absolute;\n\x7d\n\n/* Once JS has applied inline display styles, make visible */\n.mermaid-block > .mermaid[style*=\"display: block\"] \x7b\n  visibility: visible;\n  position: static;\n\x7d\n</style>\n".data

/-- The shared mermaid initialization and theme-switching logic
(`mermaidInitScript` in the source). -/
def mermaidInitScript : List Char :=
  "\ndocument.documentElement.classList.add(\"mermaid-enabled\");\n\nmermaid.initialize(\x7b\n  startOnLoad: true,\n  flowchart: \x7b useMaxWidth: true \x7d,\n  sequence: \x7b useMaxWidth: true \x7d,\n\x7d);\n\n// Determine if we\x27re in dark mode\nfunction isDarkMode() \x7b\n  // TypeDoc uses data-theme attribute on html element\n  const theme = document.documentElement.dataset.theme;\n  if (theme === \"dark\") return true;\n  if (theme === \"light\") return false;\n  // Fall back to system preference\n  return window.matchMedia(\"(prefers-color-scheme: dark)\").matches;\n\x7d\n\n// Update diagram visibility based on current theme\nfunction updateDiagramVisibility() \x7b\n  const dark = isDarkMode();\n  document.querySelectorAll(\".mermaid-block .mermaid.dark\").forEach(el => \x7b\n    el.style.display = dark ? \"block\" : \"none\";\n  \x7d);\n  document.querySelectorAll(\".mermaid-block .mermaid.light\").forEach(el => \x7b\n    el.style.display = dark ? \"none\" : \"block\";\n  \x7d);\n\x7d\n\n// Wait for mermaid to render ALL SVGs before setting initial visibility\nrequestAnimationFrame(function check() \x7b\n  const allMermaids = document.querySelectorAll(\"div.mermaid\");\n  const rendered = document.querySelectorAll(\"div.mermaid svg\");\n\n  if (rendered.length < allMermaids.length) \x7b\n    // Still waiting for mermaid to render\n    requestAnimationFrame(check);\n  \x7d else \x7b\n    // All diagrams rendered, now apply visibility\n    updateDiagramVisibility();\n  \x7d\n\x7d);\n\n// Watch for theme changes via attribute mutation\nconst observer = new MutationObserver((mutations) => \x7b\n  for (const mutation of mutations) \x7b\n    if (mutation.attributeName === \"data-theme\") \x7b\n      updateDiagramVisibility();\n    \x7d\n  \x7d\n\x7d);\nobserver.observe(document.documentElement, \x7b attributes: true \x7d);\n\n// Also watch system preference changes\nwindow.matchMedia(\"(prefers-color-scheme: dark)\").addEventListener(\"change\", updateDiagramVisibility);\n".data

/-! ### The entity codec (`escapeHtml`, `unescapeHtml`) -/

/-- The single-character pattern `&`. -/
def S_AMP : List Char := "&".data

/-- The single-character pattern `<`. -/
def S_LT : List Char := "<".data

/-- The single-character pattern `>`. -/
def S_GT : List Char := ">".data

/-- The single-character pattern for the double quote. -/
def S_QUOT : List Char := "\"".data

/-- The single-character pattern for the apostrophe. -/
def S_APOS : List Char := "\x27".data

/-- The named character reference for `&`. -/
def E_AMP : List Char := "&amp;".data

/-- The named character reference for `<`. -/
def E_LT : List Char := "&lt;".data

/-- The named character reference for `>`. -/
def E_GT : List Char := "&gt;".data

/-- The named character reference for the double quote. -/
def E_QUOT : List Char := "&quot;".data

/-- The numeric character reference for the apostrophe. -/
def E_APOS : List Char := "&#39;".data

/-- Mermaid's private entity marker standing for `<`. -/
def M_LT : List Char := "#lt;".data

/-- Mermaid's private entity marker standing for `>`. -/
def M_GT : List Char := "#gt;".data

/-- Mermaid's private entity marker standing for the double quote. -/
def M_QUOT : List Char := "#quot;".data

/-- Mermaid's private entity marker standing for `&`. -/
def M_AMP : List Char := "#amp;".data

/-- Escape HTML entities for display in the fallback pre block
(`escapeHtml` in the source): ampersand first, then `<`, `>`, the
double quote and the apostrophe. -/
def escapeHtml (str : List Char) : List Char :=
  replaceAll S_APOS E_APOS
    (replaceAll S_QUOT E_QUOT
      (replaceAll S_GT E_GT
        (replaceAll S_LT E_LT
          (replaceAll S_AMP E_AMP str))))

/-- Unescape HTML entities back to text for mermaid to parse
(`unescapeHtml` in the source).  Angle brackets, double quotes and
ampersands become mermaid's `#entity;` markers; `&#39;` becomes a
plain apostrophe. -/
def unescapeHtml (str : List Char) : List Char :=
  replaceAll E_AMP M_AMP
    (replaceAll E_APOS S_APOS
      (replaceAll E_QUOT M_QUOT
        (replaceAll E_GT M_GT
          (replaceAll E_LT M_LT str))))

/-! ### The theme-reactive markup builder (`toMermaidBlock`) -/

/-- Opening of the dark-theme mermaid placeholder, including the
embedded theme directive. -/
def DARK_OPEN : List Char :=
  "<div class=\"mermaid dark\">%%\x7binit:\x7b\"theme\":\"dark\"\x7d\x7d%%\n".data

/-- Opening of the light-theme mermaid placeholder. -/
def LIGHT_OPEN : List Char :=
  "<div class=\"mermaid light\">%%\x7binit:\x7b\"theme\":\"default\"\x7d\x7d%%\n".data

/-- Closing tag of a mermaid placeholder div. -/
def DIV_CLOSE : List Char := "</div>".data

/-- Opening of the fallback pre/code element. -/
def FALLBACK_OPEN : List Char := "<pre><code class=\"language-mermaid\">".data

/-- Closing of the fallback pre/code element. -/
def FALLBACK_CLOSE : List Char := "</code></pre>".data

/-- The body of a mermaid block after the wrapper-opening tag:
dark placeholder, light placeholder, fallback pre/code. -/
def toMermaidBlockBody (plainCode htmlCode : List Char) : List Char :=
  (DARK_OPEN ++ plainCode ++ DIV_CLOSE)
    ++ (LIGHT_OPEN ++ plainCode ++ DIV_CLOSE)
    ++ (FALLBACK_OPEN ++ htmlCode ++ FALLBACK_CLOSE)
    ++ MERMAID_BLOCK_END

/-- Convert HTML-escaped mermaid code to a block with dark/light
variants (`toMermaidBlock` in the source): unescape for mermaid to
parse, then re-escape for the fallback pre. -/
def toMermaidBlock (escapedCode : List Char) : List Char :=
  let plainCode := trim (unescapeHtml escapedCode)
  let htmlCode := escapeHtml plainCode
  MERMAID_BLOCK_START ++ toMermaidBlockBody plainCode htmlCode

/-! ### The block locator (`transformMermaidBlocks`) -/

/-- Resolve the regular expression's tail
`([\s\S]*?)<\/code><button[^>]*>Copy<\/button><\/pre>` at the current
position: find the shortest capture `code` after which the literal
separator, the greedy run of non-`>` characters and the literal tail
all match; return the capture and what follows the whole match. -/
def findBlockEnd : List Char → Option (List Char × List Char)
  | [] => none
  | c :: rest =>
    if SEP_BTN.isPrefixOf (c :: rest)
        && TAILQ.isPrefixOf
          (((c :: rest).drop SEP_BTN.length).dropWhile (fun d => d != '>')) then
      some ([],
        ((((c :: rest).drop SEP_BTN.length).dropWhile (fun d => d != '>'))).drop TAILQ.length)
    else
      match findBlockEnd rest with
      | some (code, r) => some (c :: code, r)
      | none => none

/-- A successful match consumes at least the separator and the tail,
so the remainder is strictly shorter than the scanned text. -/
theorem findBlockEnd_len :
    ∀ (s : List Char) (cr : List Char × List Char),
      findBlockEnd s = some cr → cr.2.length < s.length := by
  intro s
  induction s with
  | nil => intro cr h; simp [findBlockEnd] at h
  | cons c rest ih =>
    intro cr h
    rw [findBlockEnd] at h
    by_cases hc : (SEP_BTN.isPrefixOf (c :: rest)
        && TAILQ.isPrefixOf
          (((c :: rest).drop SEP_BTN.length).dropWhile (fun d => d != '>'))) = true
    · rw [if_pos hc] at h
      cases h
      have h1 : (((c :: rest).drop SEP_BTN.length).dropWhile (fun d => d != '>')).length
          ≤ ((c :: rest).drop SEP_BTN.length).length :=
        List.Sublist.length_le (List.dropWhile_sublist _)
      have h2 : (((((c :: rest).drop SEP_BTN.length).dropWhile (fun d => d != '>'))).drop TAILQ.length).length
          = (((c :: rest).drop SEP_BTN.length).dropWhile (fun d => d != '>')).length - TAILQ.length :=
        List.length_drop _ _
      have hsep : SEP_BTN.length ≤ (c :: rest).length := by
        have := List.IsPrefix.length_le (List.isPrefixOf_iff_prefix.mp (by
          have := hc
          simp only [Bool.and_eq_true] at this
          exact this.1))
        exact this
      have htl : TAILQ.length ≤ (((c :: rest).drop SEP_BTN.length).dropWhile (fun d => d != '>')).length := by
        have := List.IsPrefix.length_le (List.isPrefixOf_iff_prefix.mp (by
          have := hc
          simp only [Bool.and_eq_true] at this
          exact this.2))
        exact this
      have hseplen : SEP_BTN.length = 14 := by decide
      have htllen : TAILQ.length = 20 := by decide
      simp only [List.length_drop, List.length_cons] at *
      omega
    · rw [if_neg hc] at h
      cases hfe : findBlockEnd rest with
      | none => rw [hfe] at h; exact absurd h (by simp)
      | some cr' =>
        rw [hfe] at h
        obtain ⟨code', r'⟩ := cr'
        simp only at h
        cases h
        have := ih (code', r') hfe
        simp only [List.length_cons]
        exact Nat.lt_succ_of_lt this

/-- Fuel-indexed worker for `transformMermaidBlocks`. -/
def transformMermaidBlocksAux : Nat → List Char → List Char
  | _, [] => []
  | 0, s => s
  | fuel + 1, c :: rest =>
    if PRE_MERMAID.isPrefixOf (c :: rest) then
      match findBlockEnd ((c :: rest).drop PRE_MERMAID.length) with
      | some cr => toMermaidBlock cr.1 ++ transformMermaidBlocksAux fuel cr.2
      | none => c :: transformMermaidBlocksAux fuel rest
    else c :: transformMermaidBlocksAux fuel rest

/-- Replace pre/code mermaid blocks in HTML with mermaid divs
(`transformMermaidBlocks` in the source): the global-regex scan,
replacing every non-overlapping leftmost match in place. -/
def transformMermaidBlocks (html : List Char) : List Char :=
  transformMermaidBlocksAux html.length html

/-- A successful block match begins with the literal pattern head, so
the remainder is also shorter than the whole scanned text. -/
theorem findBlockEnd_len_drop (c : Char) (rest : List Char)
    (cr : List Char × List Char)
    (h : findBlockEnd ((c :: rest).drop PRE_MERMAID.length) = some cr) :
    cr.2.length ≤ rest.length := by
  have := findBlockEnd_len _ _ h
  simp only [List.length_drop, List.length_cons] at this
  omega

/-- The result of `transformMermaidBlocksAux` does not depend on the
fuel so long as the fuel covers the length of the text. -/
theorem transformMermaidBlocksAux_congr :
    ∀ (n : Nat) (s : List Char) (f₁ f₂ : Nat), s.length ≤ n →
      s.length ≤ f₁ → s.length ≤ f₂ →
      transformMermaidBlocksAux f₁ s = transformMermaidBlocksAux f₂ s := by
  intro n
  induction n with
  | zero =>
    intro s f₁ f₂ hn _ _
    have : s = [] := List.length_eq_zero.mp (Nat.le_zero.mp hn)
    subst this
    cases f₁ <;> cases f₂ <;> rfl
  | succ n ih =>
    intro s f₁ f₂ hn h1 h2
    cases s with
    | nil => cases f₁ <;> cases f₂ <;> rfl
    | cons c rest =>
      simp only [List.length_cons] at hn h1 h2
      cases f₁ with
      | zero => omega
      | succ g₁ =>
        cases f₂ with
        | zero => omega
        | succ g₂ =>
          show (if PRE_MERMAID.isPrefixOf (c :: rest) then
              match findBlockEnd ((c :: rest).drop PRE_MERMAID.length) with
              | some cr => toMermaidBlock cr.1 ++ transformMermaidBlocksAux g₁ cr.2
              | none => c :: transformMermaidBlocksAux g₁ rest
            else c :: transformMermaidBlocksAux g₁ rest)
            = (if PRE_MERMAID.isPrefixOf (c :: rest) then
              match findBlockEnd ((c :: rest).drop PRE_MERMAID.length) with
              | some cr => toMermaidBlock cr.1 ++ transformMermaidBlocksAux g₂ cr.2
              | none => c :: transformMermaidBlocksAux g₂ rest
            else c :: transformMermaidBlocksAux g₂ rest)
          by_cases hc : PRE_MERMAID.isPrefixOf (c :: rest)
          · rw [if_pos hc, if_pos hc]
            cases hfe : findBlockEnd ((c :: rest).drop PRE_MERMAID.length) with
            | some cr =>
              have hlen := findBlockEnd_len_drop c rest cr hfe
              simp only
              rw [ih cr.2 g₁ g₂ (by omega) (by omega) (by omega)]
            | none =>
              simp only
              rw [ih rest g₁ g₂ (by omega) (by omega) (by omega)]
          · rw [if_neg hc, if_neg hc]
            rw [ih rest g₁ g₂ (by omega) (by omega) (by omega)]

/-- Unfolding: the transform of the empty page. -/
theorem transform_nil : transformMermaidBlocks [] = [] := rfl

/-- Unfolding: a regex match at the head is rewritten in place and the
scan continues after the whole matched span. -/
theorem transform_cons_match (c : Char) (rest : List Char)
    (cr : List Char × List Char)
    (hp : PRE_MERMAID.isPrefixOf (c :: rest))
    (hf : findBlockEnd ((c :: rest).drop PRE_MERMAID.length) = some cr) :
    transformMermaidBlocks (c :: rest)
      = toMermaidBlock cr.1 ++ transformMermaidBlocks cr.2 := by
  show (if PRE_MERMAID.isPrefixOf (c :: rest) then
      match findBlockEnd ((c :: rest).drop PRE_MERMAID.length) with
      | some cr => toMermaidBlock cr.1 ++ transformMermaidBlocksAux rest.length cr.2
      | none => c :: transformMermaidBlocksAux rest.length rest
    else c :: transformMermaidBlocksAux rest.length rest) = _
  rw [if_pos hp, hf]
  have hlen := findBlockEnd_len_drop c rest cr hf
  simp only
  congr 1
  exact transformMermaidBlocksAux_congr rest.length _ _ _ (by omega) (by omega) (le_refl _)

/-- Unfolding: the pattern head matches but no block completes, so the
scan moves on by one character. -/
theorem transform_cons_miss (c : Char) (rest : List Char)
    (hp : PRE_MERMAID.isPrefixOf (c :: rest))
    (hf : findBlockEnd ((c :: rest).drop PRE_MERMAID.length) = none) :
    transformMermaidBlocks (c :: rest) = c :: transformMermaidBlocks rest := by
  show (if PRE_MERMAID.isPrefixOf (c :: rest) then
      match findBlockEnd ((c :: rest).drop PRE_MERMAID.length) with
      | some cr => toMermaidBlock cr.1 ++ transformMermaidBlocksAux rest.length cr.2
      | none => c :: transformMermaidBlocksAux rest.length rest
    else c :: transformMermaidBlocksAux rest.length rest) = _
  rw [if_pos hp, hf]
  rfl

/-- Unfolding: the pattern head does not match. -/
theorem transform_cons_skip (c : Char) (rest : List Char)
    (hp : ¬ PRE_MERMAID.isPrefixOf (c :: rest)) :
    transformMermaidBlocks (c :: rest) = c :: transformMermaidBlocks rest := by
  show (if PRE_MERMAID.isPrefixOf (c :: rest) then
      match findBlockEnd ((c :: rest).drop PRE_MERMAID.length) with
      | some cr => toMermaidBlock cr.1 ++ transformMermaidBlocksAux rest.length cr.2
      | none => c :: transformMermaidBlocksAux rest.length rest
    else c :: transformMermaidBlocksAux rest.length rest) = _
  rw [if_neg hp]
  rfl

/-- Existence of a regex match anywhere in the input: the scan of
`transformMermaidBlocks` rewrites something if and only if this holds. -/
def hasMermaidBlock : List Char → Bool
  | [] => false
  | c :: rest =>
    (PRE_MERMAID.isPrefixOf (c :: rest)
      && (findBlockEnd ((c :: rest).drop PRE_MERMAID.length)).isSome)
    || hasMermaidBlock rest

/-! ### Page processing (`processMermaidPage`, `getScript`) -/

/-- Mermaid source options for loading the library
(`MermaidSource` in the source; `localMode` renders the string
literal `'local'`, which is a reserved word here). -/
inductive MermaidSource
  | cdn
  | localMode
deriving DecidableEq

/-- Options for generating the mermaid script tag. -/
structure MermaidScriptOptions where
  cdnUrl : List Char
  localPath : List Char
  source : MermaidSource
deriving DecidableEq

/-- Literal before the import URL in the generated script. -/
def SCRIPT_OPEN : List Char :=
  "\n<script type=\"module\">\nimport mermaid from \"".data

/-- Literal between the import URL and the init code. -/
def SCRIPT_MID : List Char := "\";\n".data

/-- Literal closing the generated script. -/
def SCRIPT_CLOSE : List Char := "\n</script>\n".data

/-- Generate the script tag for initializing Mermaid
(`getScript` in the source). -/
def getScript (options : MermaidScriptOptions) : List Char :=
  let mermaidUrl :=
    match options.source with
    | .localMode => options.localPath
    | .cdn => options.cdnUrl
  SCRIPT_OPEN ++ mermaidUrl ++ SCRIPT_MID ++ mermaidInitScript ++ SCRIPT_CLOSE

/-- The literal `</head>`. -/
def HEAD_END : List Char := "</head>".data

/-- The literal `</body>`. -/
def BODY_END : List Char := "</body>".data

/-- Check if a page has mermaid blocks and inject script/styles
(`processMermaidPage` in the source): transform the blocks; if the
result contains the wrapper-opening string, insert the stylesheet
before the first `</head>` and the script before the last `</body>`. -/
def processMermaidPage (html : List Char) (options : MermaidScriptOptions) : List Char :=
  let h := transformMermaidBlocks html
  if containsSub MERMAID_BLOCK_START h then
    let h2 :=
      match firstIdx HEAD_END h with
      | some i => h.take i ++ styleText ++ h.drop i
      | none => h
    match lastIdx BODY_END h2 with
    | some j => h2.take j ++ getScript options ++ h2.drop j
    | none => h2
  else h

/-! ### The asset path resolver (`getRelativeAssetPath`) -/

/-- One parent-directory step of a relative path. -/
def PARENT_STEP : List Char := "../".data

/-- The same-directory prefix. -/
def CUR_DIR : List Char := "./".data

/-- The fixed shared-assets directory fragment. -/
def ASSETS_MERMAID_DIR : List Char := "assets/mermaid/".data

/-- Repetition of a chunk, as JavaScript's `String.prototype.repeat`. -/
def repList (l : List Char) : Nat → List Char
  | 0 => []
  | n + 1 => l ++ repList l n

/-- Calculate the relative path from a page URL to the mermaid ESM
entry point (`getRelativeAssetPath` in the source). -/
def getRelativeAssetPath (pageUrl : List Char) : List Char :=
  let depth := (pageUrl.splitOn '/').length - 1
  (if depth > 0 then repList PARENT_STEP depth else CUR_DIR)
    ++ ASSETS_MERMAID_DIR ++ MERMAID_ESM_ENTRY

/-! ### Prefix facts -/

/-- Whether a pattern matches at the front of `l ++ z` is independent
of `z` once `l` is at least as long as the pattern. -/
theorem isPrefixOf_append_indep (pat l z : List Char) (h : pat.length ≤ l.length) :
    pat.isPrefixOf (l ++ z) = pat.isPrefixOf l := by
  have key : (l ++ z).take pat.length = l.take pat.length := by
    rw [List.take_append_eq_append_take, Nat.sub_eq_zero_of_le h, List.take_zero,
      List.append_nil]
  rw [Bool.eq_iff_iff]
  rw [List.isPrefixOf_iff_prefix, List.isPrefixOf_iff_prefix,
    List.prefix_iff_eq_take, List.prefix_iff_eq_take, key]

/-- A pattern matches at the front of an append of itself. -/
theorem isPrefixOf_append_self (l z : List Char) : l.isPrefixOf (l ++ z) = true :=
  List.isPrefixOf_iff_prefix.mpr (List.prefix_append l z)

/-- A non-matching head character is skipped by the replacement scan. -/
theorem replaceAll_cons_ne (p : Char) (ps rep : List Char) (c : Char) (s : List Char)
    (hc : c ≠ p) :
    replaceAll (p :: ps) rep (c :: s) = c :: replaceAll (p :: ps) rep s := by
  apply replaceAll_cons_skip
  rintro ⟨-, hpre⟩
  have : (p == c && ps.isPrefixOf s) = true := hpre
  rw [Bool.and_eq_true, beq_iff_eq] at this
  exact hc this.1.symm

/-- A whole block of characters free of the pattern head passes
through the replacement scan untouched. -/
theorem replaceAll_append_headFree (p : Char) (ps rep : List Char) (b z : List Char)
    (hfree : ∀ c ∈ b, c ≠ p) :
    replaceAll (p :: ps) rep (b ++ z) = b ++ replaceAll (p :: ps) rep z := by
  induction b with
  | nil => rfl
  | cons c b ih =>
    rw [List.cons_append, replaceAll_cons_ne p ps rep c _ (hfree c (List.mem_cons_self c b)),
      ih (fun d hd => hfree d (List.mem_cons_of_mem c hd)), List.cons_append]

/-- A block that agrees with the pattern head but disagrees at the
second character, and whose tail is free of the pattern head, passes
through the replacement scan untouched. -/
theorem replaceAll_append_entity2 (p q : Char) (ps rep : List Char)
    (d : Char) (b' z : List Char) (hd : d ≠ q) (hfree : ∀ c ∈ d :: b', c ≠ p) :
    replaceAll (p :: q :: ps) rep ((p :: d :: b') ++ z)
      = (p :: d :: b') ++ replaceAll (p :: q :: ps) rep z := by
  have tail : replaceAll (p :: q :: ps) rep ((d :: b') ++ z)
      = (d :: b') ++ replaceAll (p :: q :: ps) rep z :=
    replaceAll_append_headFree p (q :: ps) rep (d :: b') z hfree
  have step : replaceAll (p :: q :: ps) rep (p :: ((d :: b') ++ z))
      = p :: replaceAll (p :: q :: ps) rep ((d :: b') ++ z) := by
    apply replaceAll_cons_skip
    rintro ⟨-, hpre⟩
    have h0 : (p == p && (q :: ps).isPrefixOf (d :: (b' ++ z))) = true := hpre
    rw [Bool.and_eq_true] at h0
    have h2 : (q == d && ps.isPrefixOf (b' ++ z)) = true := h0.2
    rw [Bool.and_eq_true, beq_iff_eq] at h2
    exact hd h2.1.symm
  calc replaceAll (p :: q :: ps) rep ((p :: d :: b') ++ z)
      = replaceAll (p :: q :: ps) rep (p :: ((d :: b') ++ z)) := by
        simp only [List.cons_append]
    _ = p :: replaceAll (p :: q :: ps) rep ((d :: b') ++ z) := step
    _ = p :: ((d :: b') ++ replaceAll (p :: q :: ps) rep z) := by rw [tail]
    _ = (p :: d :: b') ++ replaceAll (p :: q :: ps) rep z := by
        simp only [List.cons_append]

/-- A block equal to the pattern itself is replaced. -/
theorem replaceAll_append_match (pat rep z : List Char) (h : pat ≠ []) :
    replaceAll pat rep (pat ++ z) = rep ++ replaceAll pat rep z := by
  cases pat with
  | nil => exact absurd rfl h
  | cons p ps =>
    rw [List.cons_append,
      replaceAll_cons_match (p :: ps) rep p (ps ++ z) h
        (by rw [← List.cons_append]; exact isPrefixOf_append_self _ _)]
    congr 1
    rw [← List.cons_append, List.drop_left]

/-- The pattern-head-free property also makes a standalone text inert. -/
theorem replaceAll_eq_self_headFree (p : Char) (ps rep : List Char) (s : List Char)
    (hfree : ∀ c ∈ s, c ≠ p) :
    replaceAll (p :: ps) rep s = s := by
  have := replaceAll_append_headFree p ps rep s [] hfree
  rw [List.append_nil, replaceAll_nil, List.append_nil] at this
  exact this

/-! ### Characterization of the codec as a per-character map -/

/-- Unfolding of `concatMap` on a cons. -/
theorem concatMap_cons (f : Char → List Char) (c : Char) (s : List Char) :
    concatMap f (c :: s) = f c ++ concatMap f s := rfl

/-- Pointwise-identity maps leave the text unchanged. -/
theorem concatMap_eq_self (g : Char → List Char) (s : List Char)
    (h : ∀ c ∈ s, g c = [c]) : concatMap g s = s := by
  induction s with
  | nil => rfl
  | cons c s ih =>
    rw [concatMap_cons, h c (List.mem_cons_self c s),
      ih (fun d hd => h d (List.mem_cons_of_mem c hd))]
    rfl

/-- Members of a `concatMap` image come from the image of a member. -/
theorem mem_concatMap (g : Char → List Char) (s : List Char) (x : Char)
    (hx : x ∈ concatMap g s) : ∃ c ∈ s, x ∈ g c := by
  induction s with
  | nil => exact absurd hx (by simp [concatMap])
  | cons c s ih =>
    rw [concatMap_cons, List.mem_append] at hx
    cases hx with
    | inl h => exact ⟨c, List.mem_cons_self c s, h⟩
    | inr h =>
      obtain ⟨d, hd, hxd⟩ := ih h
      exact ⟨d, List.mem_cons_of_mem c hd, hxd⟩

/-- A single replacement pass acts blockwise on a per-character map. -/
theorem replaceAll_concatMap (pat rep : List Char) (g g' : Char → List Char)
    (hg : ∀ c z, replaceAll pat rep (g c ++ z) = g' c ++ replaceAll pat rep z) :
    ∀ s, replaceAll pat rep (concatMap g s) = concatMap g' s := by
  intro s
  induction s with
  | nil => exact replaceAll_nil pat rep
  | cons c s ih => rw [concatMap_cons, hg c, ih, concatMap_cons]

/-- Per-character image after escaping the ampersand. -/
def escChar1 (c : Char) : List Char := if c = '&' then E_AMP else [c]

/-- Per-character image after additionally escaping `<`. -/
def escChar2 (c : Char) : List Char := if c = '<' then E_LT else escChar1 c

/-- Per-character image after additionally escaping `>`. -/
def escChar3 (c : Char) : List Char := if c = '>' then E_GT else escChar2 c

/-- Per-character image after additionally escaping the double quote. -/
def escChar4 (c : Char) : List Char := if c = '"' then E_QUOT else escChar3 c

/-- Per-character image of `escapeHtml`. -/
def escChar (c : Char) : List Char := if c = '\x27' then E_APOS else escChar4 c

/-- Per-character image after converting `&lt;` to mermaid's marker. -/
def unescChar1 (c : Char) : List Char := if c = '<' then M_LT else escChar c

/-- Per-character image after additionally converting `&gt;`. -/
def unescChar2 (c : Char) : List Char := if c = '>' then M_GT else unescChar1 c

/-- Per-character image after additionally converting `&quot;`. -/
def unescChar3 (c : Char) : List Char := if c = '"' then M_QUOT else unescChar2 c

/-- Per-character image after additionally restoring the apostrophe. -/
def unescChar4 (c : Char) : List Char := if c = '\x27' then S_APOS else unescChar3 c

/-- Per-character image of `unescapeHtml` composed with `escapeHtml`:
angle brackets, double quotes and ampersands become mermaid `#entity;`
markers, apostrophes come back as themselves, everything else is
untouched. -/
def postChar (c : Char) : List Char := if c = '&' then M_AMP else unescChar4 c

/-- The ampersand replacement pass realizes `escChar1`. -/
theorem stage_amp (c : Char) (z : List Char) :
    replaceAll S_AMP E_AMP ([c] ++ z) = escChar1 c ++ replaceAll S_AMP E_AMP z := by
  by_cases h : c = '&'
  · subst h
    rw [show escChar1 '&' = E_AMP from rfl]
    exact replaceAll_append_match S_AMP E_AMP z (by decide)
  · rw [show escChar1 c = [c] from if_neg h]
    exact replaceAll_append_headFree '&' [] E_AMP [c] z (by
      intro d hd
      rw [List.mem_singleton] at hd
      subst hd
      exact h)

/-- The `<` replacement pass realizes `escChar2` on `escChar1` blocks. -/
theorem stage_lt (c : Char) (z : List Char) :
    replaceAll S_LT E_LT (escChar1 c ++ z) = escChar2 c ++ replaceAll S_LT E_LT z := by
  by_cases h1 : c = '&'
  · subst h1
    rw [show escChar1 '&' = E_AMP from rfl, show escChar2 '&' = E_AMP from rfl]
    exact replaceAll_append_headFree '<' [] E_LT E_AMP z (by decide)
  · rw [show escChar1 c = [c] from if_neg h1]
    by_cases h2 : c = '<'
    · subst h2
      rw [show escChar2 '<' = E_LT from rfl]
      exact replaceAll_append_match S_LT E_LT z (by decide)
    · rw [show escChar2 c = [c] from by rw [escChar2, if_neg h2, escChar1, if_neg h1]]
      exact replaceAll_append_headFree '<' [] E_LT [c] z (by
        intro d hd
        rw [List.mem_singleton] at hd
        subst hd
        exact h2)

/-- The `>` replacement pass realizes `escChar3` on `escChar2` blocks. -/
theorem stage_gt (c : Char) (z : List Char) :
    replaceAll S_GT E_GT (escChar2 c ++ z) = escChar3 c ++ replaceAll S_GT E_GT z := by
  by_cases h1 : c = '&'
  · subst h1
    rw [show escChar2 '&' = E_AMP from rfl, show escChar3 '&' = E_AMP from rfl]
    exact replaceAll_append_headFree '>' [] E_GT E_AMP z (by decide)
  · by_cases h2 : c = '<'
    · subst h2
      rw [show escChar2 '<' = E_LT from rfl, show escChar3 '<' = E_LT from rfl]
      exact replaceAll_append_headFree '>' [] E_GT E_LT z (by decide)
    · rw [show escChar2 c = [c] from by rw [escChar2, if_neg h2, escChar1, if_neg h1]]
      by_cases h3 : c = '>'
      · subst h3
        rw [show escChar3 '>' = E_GT from rfl]
        exact replaceAll_append_match S_GT E_GT z (by decide)
      · rw [show escChar3 c = [c] from by
          rw [escChar3, if_neg h3, escChar2, if_neg h2, escChar1, if_neg h1]]
        exact replaceAll_append_headFree '>' [] E_GT [c] z (by
          intro d hd
          rw [List.mem_singleton] at hd
          subst hd
          exact h3)

/-- The double-quote replacement pass realizes `escChar4`. -/
theorem stage_quot (c : Char) (z : List Char) :
    replaceAll S_QUOT E_QUOT (escChar3 c ++ z)
      = escChar4 c ++ replaceAll S_QUOT E_QUOT z := by
  by_cases h1 : c = '&'
  · subst h1
    rw [show escChar3 '&' = E_AMP from rfl, show escChar4 '&' = E_AMP from rfl]
    exact replaceAll_append_headFree '"' [] E_QUOT E_AMP z (by decide)
  · by_cases h2 : c = '<'
    · subst h2
      rw [show escChar3 '<' = E_LT from rfl, show escChar4 '<' = E_LT from rfl]
      exact replaceAll_append_headFree '"' [] E_QUOT E_LT z (by decide)
    · by_cases h3 : c = '>'
      · subst h3
        rw [show escChar3 '>' = E_GT from rfl, show escChar4 '>' = E_GT from rfl]
        exact replaceAll_append_headFree '"' [] E_QUOT E_GT z (by decide)
      · rw [show escChar3 c = [c] from by
          rw [escChar3, if_neg h3, escChar2, if_neg h2, escChar1, if_neg h1]]
        by_cases h4 : c = '"'
        · subst h4
          rw [show escChar4 '"' = E_QUOT from rfl]
          exact replaceAll_append_match S_QUOT E_QUOT z (by decide)
        · rw [show escChar4 c = [c] from by
            rw [escChar4, if_neg h4, escChar3, if_neg h3, escChar2, if_neg h2,
              escChar1, if_neg h1]]
          exact replaceAll_append_headFree '"' [] E_QUOT [c] z (by
            intro d hd
            rw [List.mem_singleton] at hd
            subst hd
            exact h4)

/-- The apostrophe replacement pass realizes `escChar`. -/
theorem stage_apos (c : Char) (z : List Char) :
    replaceAll S_APOS E_APOS (escChar4 c ++ z)
      = escChar c ++ replaceAll S_APOS E_APOS z := by
  by_cases h1 : c = '&'
  · subst h1
    rw [show escChar4 '&' = E_AMP from rfl, show escChar '&' = E_AMP from rfl]
    exact replaceAll_append_headFree '\x27' [] E_APOS E_AMP z (by decide)
  · by_cases h2 : c = '<'
    · subst h2
      rw [show escChar4 '<' = E_LT from rfl, show escChar '<' = E_LT from rfl]
      exact replaceAll_append_headFree '\x27' [] E_APOS E_LT z (by decide)
    · by_cases h3 : c = '>'
      · subst h3
        rw [show escChar4 '>' = E_GT from rfl, show escChar '>' = E_GT from rfl]
        exact replaceAll_append_headFree '\x27' [] E_APOS E_GT z (by decide)
      · by_cases h4 : c = '"'
        · subst h4
          rw [show escChar4 '"' = E_QUOT from rfl, show escChar '"' = E_QUOT from rfl]
          exact replaceAll_append_headFree '\x27' [] E_APOS E_QUOT z (by decide)
        · rw [show escChar4 c = [c] from by
            rw [escChar4, if_neg h4, escChar3, if_neg h3, escChar2, if_neg h2,
              escChar1, if_neg h1]]
          by_cases h5 : c = '\x27'
          · subst h5
            rw [show escChar '\x27' = E_APOS from rfl]
            exact replaceAll_append_match S_APOS E_APOS z (by decide)
          · rw [show escChar c = [c] from by
              rw [escChar, if_neg h5, escChar4, if_neg h4, escChar3, if_neg h3,
                escChar2, if_neg h2, escChar1, if_neg h1]]
            exact replaceAll_append_headFree '\x27' [] E_APOS [c] z (by
              intro d hd
              rw [List.mem_singleton] at hd
              subst hd
              exact h5)

/-- The escaping function is the per-character map `escChar`:
the five replacement passes compose blockwise. -/
theorem escapeHtml_eq_concatMap (s : List Char) :
    escapeHtml s = concatMap escChar s := by
  have h1 : replaceAll S_AMP E_AMP s = concatMap escChar1 s := by
    have h0 : concatMap (fun c => [c]) s = s := concatMap_eq_self _ s (fun _ _ => rfl)
    calc replaceAll S_AMP E_AMP s
        = replaceAll S_AMP E_AMP (concatMap (fun c => [c]) s) := by rw [h0]
      _ = concatMap escChar1 s :=
        replaceAll_concatMap S_AMP E_AMP _ escChar1 (fun c z => stage_amp c z) s
  rw [escapeHtml, h1,
    replaceAll_concatMap S_LT E_LT _ escChar2 (fun c z => stage_lt c z),
    replaceAll_concatMap S_GT E_GT _ escChar3 (fun c z => stage_gt c z),
    replaceAll_concatMap S_QUOT E_QUOT _ escChar4 (fun c z => stage_quot c z),
    replaceAll_concatMap S_APOS E_APOS _ escChar (fun c z => stage_apos c z)]

/-- The `&lt;` conversion pass realizes `unescChar1` on `escChar` blocks. -/
theorem stage_mlt (c : Char) (z : List Char) :
    replaceAll E_LT M_LT (escChar c ++ z) = unescChar1 c ++ replaceAll E_LT M_LT z := by
  by_cases h1 : c = '&'
  · subst h1
    rw [show escChar '&' = E_AMP from rfl, show unescChar1 '&' = E_AMP from rfl]
    exact replaceAll_append_entity2 '&' 'l' ['t', ';'] M_LT 'a' ['m', 'p', ';'] z
      (by decide) (by decide)
  · by_cases h2 : c = '<'
    · subst h2
      rw [show escChar '<' = E_LT from rfl, show unescChar1 '<' = M_LT from rfl]
      exact replaceAll_append_match E_LT M_LT z (by decide)
    · by_cases h3 : c = '>'
      · subst h3
        rw [show escChar '>' = E_GT from rfl, show unescChar1 '>' = E_GT from rfl]
        exact replaceAll_append_entity2 '&' 'l' ['t', ';'] M_LT 'g' ['t', ';'] z
          (by decide) (by decide)
      · by_cases h4 : c = '"'
        · subst h4
          rw [show escChar '"' = E_QUOT from rfl, show unescChar1 '"' = E_QUOT from rfl]
          exact replaceAll_append_entity2 '&' 'l' ['t', ';'] M_LT 'q' ['u', 'o', 't', ';'] z
            (by decide) (by decide)
        · by_cases h5 : c = '\x27'
          · subst h5
            rw [show escChar '\x27' = E_APOS from rfl,
              show unescChar1 '\x27' = E_APOS from rfl]
            exact replaceAll_append_entity2 '&' 'l' ['t', ';'] M_LT '#' ['3', '9', ';'] z
              (by decide) (by decide)
          · rw [show escChar c = [c] from by
                rw [escChar, if_neg h5, escChar4, if_neg h4, escChar3, if_neg h3,
                  escChar2, if_neg h2, escChar1, if_neg h1],
              show unescChar1 c = [c] from by
                rw [unescChar1, if_neg h2, escChar, if_neg h5, escChar4, if_neg h4,
                  escChar3, if_neg h3, escChar2, if_neg h2, escChar1, if_neg h1]]
            exact replaceAll_append_headFree '&' ['l', 't', ';'] M_LT [c] z (by
              intro d hd
              rw [List.mem_singleton] at hd
              subst hd
              exact h1)

/-- The `&gt;` conversion pass realizes `unescChar2` on `unescChar1` blocks. -/
theorem stage_mgt (c : Char) (z : List Char) :
    replaceAll E_GT M_GT (unescChar1 c ++ z) = unescChar2 c ++ replaceAll E_GT M_GT z := by
  by_cases h1 : c = '&'
  · subst h1
    rw [show unescChar1 '&' = E_AMP from rfl, show unescChar2 '&' = E_AMP from rfl]
    exact replaceAll_append_entity2 '&' 'g' ['t', ';'] M_GT 'a' ['m', 'p', ';'] z
      (by decide) (by decide)
  · by_cases h2 : c = '<'
    · subst h2
      rw [show unescChar1 '<' = M_LT from rfl, show unescChar2 '<' = M_LT from rfl]
      exact replaceAll_append_headFree '&' ['g', 't', ';'] M_GT M_LT z (by decide)
    · by_cases h3 : c = '>'
      · subst h3
        rw [show unescChar1 '>' = E_GT from rfl, show unescChar2 '>' = M_GT from rfl]
        exact replaceAll_append_match E_GT M_GT z (by decide)
      · by_cases h4 : c = '"'
        · subst h4
          rw [show unescChar1 '"' = E_QUOT from rfl, show unescChar2 '"' = E_QUOT from rfl]
          exact replaceAll_append_entity2 '&' 'g' ['t', ';'] M_GT 'q' ['u', 'o', 't', ';'] z
            (by decide) (by decide)
        · by_cases h5 : c = '\x27'
          · subst h5
            rw [show unescChar1 '\x27' = E_APOS from rfl,
              show unescChar2 '\x27' = E_APOS from rfl]
            exact replaceAll_append_entity2 '&' 'g' ['t', ';'] M_GT '#' ['3', '9', ';'] z
              (by decide) (by decide)
          · have hb : unescChar1 c = [c] := by
              rw [unescChar1, if_neg h2, escChar, if_neg h5, escChar4, if_neg h4,
                escChar3, if_neg h3, escChar2, if_neg h2, escChar1, if_neg h1]
            rw [hb, show unescChar2 c = [c] from by rw [unescChar2, if_neg h3, hb]]
            exact replaceAll_append_headFree '&' ['g', 't', ';'] M_GT [c] z (by
              intro d hd
              rw [List.mem_singleton] at hd
              subst hd
              exact h1)

/-- The `&quot;` conversion pass realizes `unescChar3` on `unescChar2` blocks. -/
theorem stage_mquot (c : Char) (z : List Char) :
    replaceAll E_QUOT M_QUOT (unescChar2 c ++ z)
      = unescChar3 c ++ replaceAll E_QUOT M_QUOT z := by
  by_cases h1 : c = '&'
  · subst h1
    rw [show unescChar2 '&' = E_AMP from rfl, show unescChar3 '&' = E_AMP from rfl]
    exact replaceAll_append_entity2 '&' 'q' ['u', 'o', 't', ';'] M_QUOT 'a' ['m', 'p', ';'] z
      (by decide) (by decide)
  · by_cases h2 : c = '<'
    · subst h2
      rw [show unescChar2 '<' = M_LT from rfl, show unescChar3 '<' = M_LT from rfl]
      exact replaceAll_append_headFree '&' ['q', 'u', 'o', 't', ';'] M_QUOT M_LT z (by decide)
    · by_cases h3 : c = '>'
      · subst h3
        rw [show unescChar2 '>' = M_GT from rfl, show unescChar3 '>' = M_GT from rfl]
        exact replaceAll_append_headFree '&' ['q', 'u', 'o', 't', ';'] M_QUOT M_GT z (by decide)
      · by_cases h4 : c = '"'
        · subst h4
          rw [show unescChar2 '"' = E_QUOT from rfl, show unescChar3 '"' = M_QUOT from rfl]
          exact replaceAll_append_match E_QUOT M_QUOT z (by decide)
        · by_cases h5 : c = '\x27'
          · subst h5
            rw [show unescChar2 '\x27' = E_APOS from rfl,
              show unescChar3 '\x27' = E_APOS from rfl]
            exact replaceAll_append_entity2 '&' 'q' ['u', 'o', 't', ';'] M_QUOT '#'
              ['3', '9', ';'] z (by decide) (by decide)
          · have hb : unescChar2 c = [c] := by
              rw [unescChar2, if_neg h3, unescChar1, if_neg h2, escChar, if_neg h5,
                escChar4, if_neg h4, escChar3, if_neg h3, escChar2, if_neg h2,
                escChar1, if_neg h1]
            rw [hb, show unescChar3 c = [c] from by rw [unescChar3, if_neg h4, hb]]
            exact replaceAll_append_headFree '&' ['q', 'u', 'o', 't', ';'] M_QUOT [c] z (by
              intro d hd
              rw [List.mem_singleton] at hd
              subst hd
              exact h1)

/-- The `&#39;` restoration pass realizes `unescChar4` on `unescChar3` blocks. -/
theorem stage_mapos (c : Char) (z : List Char) :
    replaceAll E_APOS S_APOS (unescChar3 c ++ z)
      = unescChar4 c ++ replaceAll E_APOS S_APOS z := by
  by_cases h1 : c = '&'
  · subst h1
    rw [show unescChar3 '&' = E_AMP from rfl, show unescChar4 '&' = E_AMP from rfl]
    exact replaceAll_append_entity2 '&' '#' ['3', '9', ';'] S_APOS 'a' ['m', 'p', ';'] z
      (by decide) (by decide)
  · by_cases h2 : c = '<'
    · subst h2
      rw [show unescChar3 '<' = M_LT from rfl, show unescChar4 '<' = M_LT from rfl]
      exact replaceAll_append_headFree '&' ['#', '3', '9', ';'] S_APOS M_LT z (by decide)
    · by_cases h3 : c = '>'
      · subst h3
        rw [show unescChar3 '>' = M_GT from rfl, show unescChar4 '>' = M_GT from rfl]
        exact replaceAll_append_headFree '&' ['#', '3', '9', ';'] S_APOS M_GT z (by decide)
      · by_cases h4 : c = '"'
        · subst h4
          rw [show unescChar3 '"' = M_QUOT from rfl, show unescChar4 '"' = M_QUOT from rfl]
          exact replaceAll_append_headFree '&' ['#', '3', '9', ';'] S_APOS M_QUOT z (by decide)
        · by_cases h5 : c = '\x27'
          · subst h5
            rw [show unescChar3 '\x27' = E_APOS from rfl,
              show unescChar4 '\x27' = S_APOS from rfl]
            exact replaceAll_append_match E_APOS S_APOS z (by decide)
          · have hb : unescChar3 c = [c] := by
              rw [unescChar3, if_neg h4, unescChar2, if_neg h3, unescChar1, if_neg h2,
                escChar, if_neg h5, escChar4, if_neg h4, escChar3, if_neg h3,
                escChar2, if_neg h2, escChar1, if_neg h1]
            rw [hb, show unescChar4 c = [c] from by rw [unescChar4, if_neg h5, hb]]
            exact replaceAll_append_headFree '&' ['#', '3', '9', ';'] S_APOS [c] z (by
              intro d hd
              rw [List.mem_singleton] at hd
              subst hd
              exact h1)

/-- The `&amp;` conversion pass realizes `postChar` on `unescChar4` blocks. -/
theorem stage_mamp (c : Char) (z : List Char) :
    replaceAll E_AMP M_AMP (unescChar4 c ++ z) = postChar c ++ replaceAll E_AMP M_AMP z := by
  by_cases h1 : c = '&'
  · subst h1
    rw [show unescChar4 '&' = E_AMP from rfl, show postChar '&' = M_AMP from rfl]
    exact replaceAll_append_match E_AMP M_AMP z (by decide)
  · by_cases h2 : c = '<'
    · subst h2
      rw [show unescChar4 '<' = M_LT from rfl, show postChar '<' = M_LT from rfl]
      exact replaceAll_append_headFree '&' ['a', 'm', 'p', ';'] M_AMP M_LT z (by decide)
    · by_cases h3 : c = '>'
      · subst h3
        rw [show unescChar4 '>' = M_GT from rfl, show postChar '>' = M_GT from rfl]
        exact replaceAll_append_headFree '&' ['a', 'm', 'p', ';'] M_AMP M_GT z (by decide)
      · by_cases h4 : c = '"'
        · subst h4
          rw [show unescChar4 '"' = M_QUOT from rfl, show postChar '"' = M_QUOT from rfl]
          exact replaceAll_append_headFree '&' ['a', 'm', 'p', ';'] M_AMP M_QUOT z (by decide)
        · by_cases h5 : c = '\x27'
          · subst h5
            rw [show unescChar4 '\x27' = S_APOS from rfl,
              show postChar '\x27' = S_APOS from rfl]
            exact replaceAll_append_headFree '&' ['a', 'm', 'p', ';'] M_AMP S_APOS z (by decide)
          · have hb : unescChar4 c = [c] := by
              rw [unescChar4, if_neg h5, unescChar3, if_neg h4, unescChar2, if_neg h3,
                unescChar1, if_neg h2, escChar, if_neg h5, escChar4, if_neg h4,
                escChar3, if_neg h3, escChar2, if_neg h2, escChar1, if_neg h1]
            rw [hb, show postChar c = [c] from by rw [postChar, if_neg h1, hb]]
            exact replaceAll_append_headFree '&' ['a', 'm', 'p', ';'] M_AMP [c] z (by
              intro d hd
              rw [List.mem_singleton] at hd
              subst hd
              exact h1)

/-- Decoding after escaping is the per-character map `postChar`. -/
theorem unescapeHtml_escapeHtml_eq (s : List Char) :
    unescapeHtml (escapeHtml s) = concatMap postChar s := by
  rw [escapeHtml_eq_concatMap, unescapeHtml,
    replaceAll_concatMap E_LT M_LT escChar unescChar1 (fun c z => stage_mlt c z),
    replaceAll_concatMap E_GT M_GT _ unescChar2 (fun c z => stage_mgt c z),
    replaceAll_concatMap E_QUOT M_QUOT _ unescChar3 (fun c z => stage_mquot c z),
    replaceAll_concatMap E_APOS S_APOS _ unescChar4 (fun c z => stage_mapos c z),
    replaceAll_concatMap E_AMP M_AMP _ postChar (fun c z => stage_mamp c z)]

/-! ### Character-level consequences of the codec characterization -/

/-- A head mismatch refutes a prefix match whatever follows. -/
theorem isPrefixOf_false_of_head_ne (a : Char) (as : List Char) (b : Char) (bs : List Char)
    (h : a ≠ b) : (a :: as).isPrefixOf (b :: bs) = false := by
  show (a == b && as.isPrefixOf bs) = false
  rw [beq_eq_false_iff_ne.mpr h, Bool.false_and]

/-- No output of `postChar` contains a raw `<`, `>`, double quote or
ampersand. -/
theorem postChar_no_markup (c : Char) (x : Char) (hx : x ∈ postChar c) :
    x ≠ '<' ∧ x ≠ '>' ∧ x ≠ '"' ∧ x ≠ '&' := by
  by_cases h1 : c = '&'
  · subst h1
    rw [show postChar '&' = M_AMP from rfl] at hx
    have hall : ∀ y ∈ M_AMP, y ≠ '<' ∧ y ≠ '>' ∧ y ≠ '"' ∧ y ≠ '&' := by decide
    exact hall x hx
  · by_cases h2 : c = '<'
    · subst h2
      rw [show postChar '<' = M_LT from rfl] at hx
      have hall : ∀ y ∈ M_LT, y ≠ '<' ∧ y ≠ '>' ∧ y ≠ '"' ∧ y ≠ '&' := by decide
      exact hall x hx
    · by_cases h3 : c = '>'
      · subst h3
        rw [show postChar '>' = M_GT from rfl] at hx
        have hall : ∀ y ∈ M_GT, y ≠ '<' ∧ y ≠ '>' ∧ y ≠ '"' ∧ y ≠ '&' := by decide
        exact hall x hx
      · by_cases h4 : c = '"'
        · subst h4
          rw [show postChar '"' = M_QUOT from rfl] at hx
          have hall : ∀ y ∈ M_QUOT, y ≠ '<' ∧ y ≠ '>' ∧ y ≠ '"' ∧ y ≠ '&' := by decide
          exact hall x hx
        · by_cases h5 : c = '\x27'
          · subst h5
            rw [show postChar '\x27' = S_APOS from rfl] at hx
            have hall : ∀ y ∈ S_APOS, y ≠ '<' ∧ y ≠ '>' ∧ y ≠ '"' ∧ y ≠ '&' := by decide
            exact hall x hx
          · rw [show postChar c = [c] from by
                rw [postChar, if_neg h1, unescChar4, if_neg h5, unescChar3, if_neg h4,
                  unescChar2, if_neg h3, unescChar1, if_neg h2, escChar, if_neg h5,
                  escChar4, if_neg h4, escChar3, if_neg h3, escChar2, if_neg h2,
                  escChar1, if_neg h1]] at hx
            rw [List.mem_singleton] at hx
            subst hx
            exact ⟨h2, h3, h4, h1⟩

/-- No output of `escChar` contains a raw `<`, `>`, double quote or
apostrophe. -/
theorem escChar_no_markup (c : Char) (x : Char) (hx : x ∈ escChar c) :
    x ≠ '<' ∧ x ≠ '>' ∧ x ≠ '"' ∧ x ≠ '\x27' := by
  by_cases h1 : c = '&'
  · subst h1
    rw [show escChar '&' = E_AMP from rfl] at hx
    have hall : ∀ y ∈ E_AMP, y ≠ '<' ∧ y ≠ '>' ∧ y ≠ '"' ∧ y ≠ '\x27' := by decide
    exact hall x hx
  · by_cases h2 : c = '<'
    · subst h2
      rw [show escChar '<' = E_LT from rfl] at hx
      have hall : ∀ y ∈ E_LT, y ≠ '<' ∧ y ≠ '>' ∧ y ≠ '"' ∧ y ≠ '\x27' := by decide
      exact hall x hx
    · by_cases h3 : c = '>'
      · subst h3
        rw [show escChar '>' = E_GT from rfl] at hx
        have hall : ∀ y ∈ E_GT, y ≠ '<' ∧ y ≠ '>' ∧ y ≠ '"' ∧ y ≠ '\x27' := by decide
        exact hall x hx
      · by_cases h4 : c = '"'
        · subst h4
          rw [show escChar '"' = E_QUOT from rfl] at hx
          have hall : ∀ y ∈ E_QUOT, y ≠ '<' ∧ y ≠ '>' ∧ y ≠ '"' ∧ y ≠ '\x27' := by decide
          exact hall x hx
        · by_cases h5 : c = '\x27'
          · subst h5
            rw [show escChar '\x27' = E_APOS from rfl] at hx
            have hall : ∀ y ∈ E_APOS, y ≠ '<' ∧ y ≠ '>' ∧ y ≠ '"' ∧ y ≠ '\x27' := by decide
            exact hall x hx
          · rw [show escChar c = [c] from by
                rw [escChar, if_neg h5, escChar4, if_neg h4, escChar3, if_neg h3,
                  escChar2, if_neg h2, escChar1, if_neg h1]] at hx
            rw [List.mem_singleton] at hx
            subst hx
            exact ⟨h2, h3, h4, h5⟩

/-- Trimming only removes characters. -/
theorem mem_of_mem_trim (s : List Char) (x : Char) (hx : x ∈ trim s) : x ∈ s := by
  have h1 : x ∈ (s.dropWhile isJsWhitespace).reverse.dropWhile isJsWhitespace := by
    have := hx
    rw [trim, trimEnd, List.mem_reverse] at this
    exact this
  have h2 : x ∈ (s.dropWhile isJsWhitespace).reverse := List.dropWhile_subset _ h1
  rw [List.mem_reverse] at h2
  exact List.dropWhile_subset _ h2

/-- Every ampersand in the text begins one of the five character
references emitted by `escapeHtml`. -/
def ampersandsEscaped : List Char → Bool
  | [] => true
  | c :: rest =>
    if c = '&' then
      (("amp;".data).isPrefixOf rest || ("lt;".data).isPrefixOf rest
        || ("gt;".data).isPrefixOf rest || ("quot;".data).isPrefixOf rest
        || ("#39;".data).isPrefixOf rest) && ampersandsEscaped rest
    else ampersandsEscaped rest

/-- A block free of ampersands does not affect `ampersandsEscaped`. -/
theorem ampersandsEscaped_skip (b r : List Char) (hfree : ∀ c ∈ b, c ≠ '&') :
    ampersandsEscaped (b ++ r) = ampersandsEscaped r := by
  induction b with
  | nil => rfl
  | cons c b ih =>
    rw [List.cons_append]
    show (if c = '&' then _ else ampersandsEscaped (b ++ r)) = _
    rw [if_neg (hfree c (List.mem_cons_self c b)),
      ih (fun d hd => hfree d (List.mem_cons_of_mem c hd))]

/-- The output of `escapeHtml`, seen as `escChar` blocks, has all its
ampersands escaped. -/
theorem ampersandsEscaped_concatMap_escChar (s : List Char) :
    ampersandsEscaped (concatMap escChar s) = true := by
  induction s with
  | nil => rfl
  | cons c s ih =>
    rw [concatMap_cons]
    by_cases h1 : c = '&'
    · subst h1
      rw [show escChar '&' = E_AMP from rfl]
      show ampersandsEscaped ('&' :: (("amp;".data) ++ (concatMap escChar s))) = true
      show (if ('&' : Char) = '&' then
          ((("amp;".data).isPrefixOf (("amp;".data) ++ concatMap escChar s)
            || ("lt;".data).isPrefixOf (("amp;".data) ++ concatMap escChar s)
            || ("gt;".data).isPrefixOf (("amp;".data) ++ concatMap escChar s)
            || ("quot;".data).isPrefixOf (("amp;".data) ++ concatMap escChar s)
            || ("#39;".data).isPrefixOf (("amp;".data) ++ concatMap escChar s))
          && ampersandsEscaped (("amp;".data) ++ concatMap escChar s))
        else ampersandsEscaped (("amp;".data) ++ concatMap escChar s)) = true
      rw [if_pos rfl, isPrefixOf_append_self]
      simp only [Bool.true_or, Bool.or_true, Bool.true_and]
      rw [ampersandsEscaped_skip _ _ (by decide)]
      exact ih
    · by_cases h2 : c = '<'
      · subst h2
        rw [show escChar '<' = E_LT from rfl]
        show ampersandsEscaped ('&' :: (("lt;".data) ++ (concatMap escChar s))) = true
        show (if ('&' : Char) = '&' then
            ((("amp;".data).isPrefixOf (("lt;".data) ++ concatMap escChar s)
              || ("lt;".data).isPrefixOf (("lt;".data) ++ concatMap escChar s)
              || ("gt;".data).isPrefixOf (("lt;".data) ++ concatMap escChar s)
              || ("quot;".data).isPrefixOf (("lt;".data) ++ concatMap escChar s)
              || ("#39;".data).isPrefixOf (("lt;".data) ++ concatMap escChar s))
            && ampersandsEscaped (("lt;".data) ++ concatMap escChar s))
          else ampersandsEscaped (("lt;".data) ++ concatMap escChar s)) = true
        rw [if_pos rfl, isPrefixOf_append_self]
        simp only [Bool.true_or, Bool.or_true, Bool.true_and]
        rw [ampersandsEscaped_skip _ _ (by decide)]
        exact ih
      · by_cases h3 : c = '>'
        · subst h3
          rw [show escChar '>' = E_GT from rfl]
          show ampersandsEscaped ('&' :: (("gt;".data) ++ (concatMap escChar s))) = true
          show (if ('&' : Char) = '&' then
              ((("amp;".data).isPrefixOf (("gt;".data) ++ concatMap escChar s)
                || ("lt;".data).isPrefixOf (("gt;".data) ++ concatMap escChar s)
                || ("gt;".data).isPrefixOf (("gt;".data) ++ concatMap escChar s)
                || ("quot;".data).isPrefixOf (("gt;".data) ++ concatMap escChar s)
                || ("#39;".data).isPrefixOf (("gt;".data) ++ concatMap escChar s))
              && ampersandsEscaped (("gt;".data) ++ concatMap escChar s))
            else ampersandsEscaped (("gt;".data) ++ concatMap escChar s)) = true
          rw [if_pos rfl, isPrefixOf_append_self]
          simp only [Bool.true_or, Bool.or_true, Bool.true_and]
          rw [ampersandsEscaped_skip _ _ (by decide)]
          exact ih
        · by_cases h4 : c = '"'
          · subst h4
            rw [show escChar '"' = E_QUOT from rfl]
            show ampersandsEscaped ('&' :: (("quot;".data) ++ (concatMap escChar s))) = true
            show (if ('&' : Char) = '&' then
                ((("amp;".data).isPrefixOf (("quot;".data) ++ concatMap escChar s)
                  || ("lt;".data).isPrefixOf (("quot;".data) ++ concatMap escChar s)
                  || ("gt;".data).isPrefixOf (("quot;".data) ++ concatMap escChar s)
                  || ("quot;".data).isPrefixOf (("quot;".data) ++ concatMap escChar s)
                  || ("#39;".data).isPrefixOf (("quot;".data) ++ concatMap escChar s))
                && ampersandsEscaped (("quot;".data) ++ concatMap escChar s))
              else ampersandsEscaped (("quot;".data) ++ concatMap escChar s)) = true
            rw [if_pos rfl, isPrefixOf_append_self]
            simp only [Bool.true_or, Bool.or_true, Bool.true_and]
            rw [ampersandsEscaped_skip _ _ (by decide)]
            exact ih
          · by_cases h5 : c = '\x27'
            · subst h5
              rw [show escChar '\x27' = E_APOS from rfl]
              show ampersandsEscaped ('&' :: (("#39;".data) ++ (concatMap escChar s))) = true
              show (if ('&' : Char) = '&' then
                  ((("amp;".data).isPrefixOf (("#39;".data) ++ concatMap escChar s)
                    || ("lt;".data).isPrefixOf (("#39;".data) ++ concatMap escChar s)
                    || ("gt;".data).isPrefixOf (("#39;".data) ++ concatMap escChar s)
                    || ("quot;".data).isPrefixOf (("#39;".data) ++ concatMap escChar s)
                    || ("#39;".data).isPrefixOf (("#39;".data) ++ concatMap escChar s))
                  && ampersandsEscaped (("#39;".data) ++ concatMap escChar s))
                else ampersandsEscaped (("#39;".data) ++ concatMap escChar s)) = true
              rw [if_pos rfl, isPrefixOf_append_self]
              simp only [Bool.true_or, Bool.or_true, Bool.true_and]
              rw [ampersandsEscaped_skip _ _ (by decide)]
              exact ih
            · rw [show escChar c = [c] from by
                  rw [escChar, if_neg h5, escChar4, if_neg h4, escChar3, if_neg h3,
                    escChar2, if_neg h2, escChar1, if_neg h1]]
              show ampersandsEscaped (c :: concatMap escChar s) = true
              show (if c = '&' then _ else ampersandsEscaped (concatMap escChar s)) = true
              rw [if_neg h1, ih]

/-! ### Claim C3 and C4 -/

/-- C3.  For every authored diagram source `s` — any combination and
order of `&`, `<`, `>`, `"`, `'` and other characters — the two
fragments that the builder interpolates into the emitted markup are
safely encoded: the text placed in the mermaid placeholder divs,
`trim (unescapeHtml (escapeHtml s))`, contains no raw `<`, `>`, `"`
or `&` at all; the text placed in the fallback code element,
`escapeHtml` of that, contains no raw `<`, `>`, `"` or `'`, and each
of its ampersands begins one of the five character references.  The
last conjunct records that these two fragments are exactly what
`toMermaidBlock` interpolates into the wrapper markup. -/
theorem pipeline_no_raw_markup_chars (s : List Char) :
    (∀ x ∈ trim (unescapeHtml (escapeHtml s)),
        x ≠ '<' ∧ x ≠ '>' ∧ x ≠ '"' ∧ x ≠ '&')
    ∧ (∀ x ∈ escapeHtml (trim (unescapeHtml (escapeHtml s))),
        x ≠ '<' ∧ x ≠ '>' ∧ x ≠ '"' ∧ x ≠ '\x27')
    ∧ ampersandsEscaped (escapeHtml (trim (unescapeHtml (escapeHtml s)))) = true
    ∧ toMermaidBlock (escapeHtml s)
        = MERMAID_BLOCK_START
          ++ toMermaidBlockBody (trim (unescapeHtml (escapeHtml s)))
            (escapeHtml (trim (unescapeHtml (escapeHtml s)))) := by
  refine ⟨?_, ?_, ?_, rfl⟩
  · intro x hx
    have h1 : x ∈ unescapeHtml (escapeHtml s) := mem_of_mem_trim _ x hx
    rw [unescapeHtml_escapeHtml_eq] at h1
    obtain ⟨c, -, hxc⟩ := mem_concatMap postChar s x h1
    exact postChar_no_markup c x hxc
  · intro x hx
    rw [escapeHtml_eq_concatMap] at hx
    obtain ⟨c, -, hxc⟩ := mem_concatMap escChar _ x hx
    exact escChar_no_markup c x hxc
  · rw [escapeHtml_eq_concatMap]
    exact ampersandsEscaped_concatMap_escChar _

/-- Closed instance of C3 at a source exercising all five
markup-significant characters. -/
theorem pipeline_no_raw_markup_chars_witness :
    (∀ x ∈ trim (unescapeHtml (escapeHtml ("A[List<int>] --> B \"q\" & it\x27s".data))),
        x ≠ '<' ∧ x ≠ '>' ∧ x ≠ '"' ∧ x ≠ '&')
    ∧ (∀ x ∈ escapeHtml (trim (unescapeHtml (escapeHtml ("A[List<int>] --> B \"q\" & it\x27s".data)))),
        x ≠ '<' ∧ x ≠ '>' ∧ x ≠ '"' ∧ x ≠ '\x27')
    ∧ ampersandsEscaped
        (escapeHtml (trim (unescapeHtml (escapeHtml ("A[List<int>] --> B \"q\" & it\x27s".data)))))
        = true
    ∧ toMermaidBlock (escapeHtml ("A[List<int>] --> B \"q\" & it\x27s".data))
        = MERMAID_BLOCK_START
          ++ toMermaidBlockBody
            (trim (unescapeHtml (escapeHtml ("A[List<int>] --> B \"q\" & it\x27s".data))))
            (escapeHtml (trim (unescapeHtml (escapeHtml ("A[List<int>] --> B \"q\" & it\x27s".data))))) :=
  pipeline_no_raw_markup_chars ("A[List<int>] --> B \"q\" & it\x27s".data)

/-- C4.  On a source with none of the five markup-significant
characters, `escapeHtml` followed by the paired `unescapeHtml` is the
identity. -/
theorem roundtrip_id_of_no_markup_chars (s : List Char)
    (h : ∀ c ∈ s, c ≠ '&' ∧ c ≠ '<' ∧ c ≠ '>' ∧ c ≠ '"' ∧ c ≠ '\x27') :
    unescapeHtml (escapeHtml s) = s := by
  rw [unescapeHtml_escapeHtml_eq]
  apply concatMap_eq_self
  intro c hc
  obtain ⟨n1, n2, n3, n4, n5⟩ := h c hc
  rw [postChar, if_neg n1, unescChar4, if_neg n5, unescChar3, if_neg n4,
    unescChar2, if_neg n3, unescChar1, if_neg n2, escChar, if_neg n5,
    escChar4, if_neg n4, escChar3, if_neg n3, escChar2, if_neg n2, escChar1, if_neg n1]

/-- Closed instance of C4 at the diagram source `graph TD`. -/
theorem roundtrip_id_of_no_markup_chars_witness :
    (∀ c ∈ ("graph TD\n  A --- B".data),
        c ≠ '&' ∧ c ≠ '<' ∧ c ≠ '>' ∧ c ≠ '"' ∧ c ≠ '\x27')
    ∧ unescapeHtml (escapeHtml ("graph TD\n  A --- B".data)) = "graph TD\n  A --- B".data :=
  ⟨by decide, roundtrip_id_of_no_markup_chars ("graph TD\n  A --- B".data) (by decide)⟩

/-! ### Claim C5 -/

/-- C5.  On input with no span matching the diagram-block pattern,
`transformMermaidBlocks` is the identity, byte for byte. -/
theorem transform_id_of_no_block (s : List Char) (h : hasMermaidBlock s = false) :
    transformMermaidBlocks s = s := by
  induction s with
  | nil => exact transform_nil
  | cons c rest ih =>
    have hstep : (PRE_MERMAID.isPrefixOf (c :: rest)
        && (findBlockEnd ((c :: rest).drop PRE_MERMAID.length)).isSome
        || hasMermaidBlock rest) = false := h
    rw [Bool.or_eq_false_iff, Bool.and_eq_false_iff] at hstep
    obtain ⟨h1, h2⟩ := hstep
    by_cases hp : PRE_MERMAID.isPrefixOf (c :: rest)
    · have hnone : findBlockEnd ((c :: rest).drop PRE_MERMAID.length) = none := by
        cases hfe : findBlockEnd ((c :: rest).drop PRE_MERMAID.length) with
        | none => rfl
        | some cr =>
          cases h1 with
          | inl hl => exact absurd hp (by rw [hl]; exact Bool.false_ne_true)
          | inr hr => rw [hfe] at hr; exact absurd hr (by simp)
      rw [transform_cons_miss c rest hp hnone, ih h2]
    · rw [transform_cons_skip c rest hp, ih h2]

/-- Closed instance of C5: a page whose only code block carries a
different language tag is returned unchanged. -/
theorem transform_id_of_no_block_witness :
    hasMermaidBlock
        ("<pre><code class=\"javascript\">const x = 1;</code><button>Copy</button></pre>".data)
        = false
    ∧ transformMermaidBlocks
        ("<pre><code class=\"javascript\">const x = 1;</code><button>Copy</button></pre>".data)
      = "<pre><code class=\"javascript\">const x = 1;</code><button>Copy</button></pre>".data :=
  ⟨by decide,
    transform_id_of_no_block
      ("<pre><code class=\"javascript\">const x = 1;</code><button>Copy</button></pre>".data)
      (by decide)⟩

/-! ### Claim C6: N independent blocks -/

/-- A matching prefix survives extension of the text. -/
theorem isPrefixOf_weaken (pat l z : List Char) (h : pat.isPrefixOf l = true) :
    pat.isPrefixOf (l ++ z) = true :=
  List.isPrefixOf_iff_prefix.mpr ((List.isPrefixOf_iff_prefix.mp h).trans (List.prefix_append l z))

/-- A prefix mismatch against `t ++ pat` rules the pattern out against
`t ++ pat ++ x` for every continuation `x`, because the first
`pat.length` characters are already fixed. -/
theorem isPrefixOf_false_continuation (pat t x : List Char)
    (h : pat.isPrefixOf (t ++ pat) = false) :
    pat.isPrefixOf (t ++ (pat ++ x)) = false := by
  rw [← List.append_assoc,
    isPrefixOf_append_indep pat (t ++ pat) x
      (by rw [List.length_append]; exact Nat.le_add_left _ _)]
  exact h

/-- The scan of `dropWhile` runs through a satisfying block and stops
at the first failing character. -/
theorem dropWhile_append_stop (p : Char → Bool) (b w : List Char) (c0 : Char)
    (hb : ∀ a ∈ b, p a = true) (hc : p c0 = false) :
    (b ++ c0 :: w).dropWhile p = c0 :: w := by
  induction b with
  | nil =>
    rw [List.nil_append, List.dropWhile_cons, hc]
    simp
  | cons a b ih =>
    rw [List.cons_append, List.dropWhile_cons, hb a (List.mem_cons_self a b)]
    simp only [if_true]
    exact ih (fun d hd => hb d (List.mem_cons_of_mem a hd))

/-- Unfolding equation of `findBlockEnd` on a cons. -/
theorem findBlockEnd_cons (c : Char) (rest : List Char) :
    findBlockEnd (c :: rest)
      = if SEP_BTN.isPrefixOf (c :: rest)
            && TAILQ.isPrefixOf
              (((c :: rest).drop SEP_BTN.length).dropWhile (fun d => d != '>')) then
          some ([],
            ((((c :: rest).drop SEP_BTN.length).dropWhile (fun d => d != '>'))).drop TAILQ.length)
        else
          match findBlockEnd rest with
          | some (code, r) => some (c :: code, r)
          | none => none := rfl

/-- Side condition on captured code: no start of the separator
`</code><button` anywhere inside (spans into the real separator
included). -/
def codeOk (code : List Char) : Prop :=
  ∀ j < code.length, SEP_BTN.isPrefixOf (code.drop j ++ SEP_BTN) = false

/-- Side condition on the copy-button attribute run: the regex's
`[^>]*` requires it to be free of `>`. -/
def attrsOk (attrs : List Char) : Prop :=
  ∀ a ∈ attrs, a ≠ '>'

/-- Side condition on surrounding non-diagram text: no start of the
block-opening literal `<pre><code class="mermaid">` anywhere inside
(spans into a following block included). -/
def txtOk (t : List Char) : Prop :=
  ∀ j < t.length, PRE_MERMAID.isPrefixOf (t.drop j ++ PRE_MERMAID) = false

/-- Side condition for wrapper counting: no start of the wrapper
literal `<div class="mermaid-block">` anywhere inside. -/
def mbsOk (t : List Char) : Prop :=
  ∀ j < t.length, MERMAID_BLOCK_START.isPrefixOf (t.drop j ++ MERMAID_BLOCK_START) = false

/-- The lazy scan resolves a well-formed block tail: it captures
exactly the code before the real separator and returns the text after
the whole span. -/
theorem findBlockEnd_spec (code attrs z : List Char)
    (hc : codeOk code) (ha : attrsOk attrs) :
    findBlockEnd (code ++ (SEP_BTN ++ (attrs ++ (TAILQ ++ z)))) = some (code, z) := by
  induction code with
  | nil =>
    rw [List.nil_append]
    have hsh : SEP_BTN ++ (attrs ++ (TAILQ ++ z))
        = '<' :: (("/code><button".data) ++ (attrs ++ (TAILQ ++ z))) := rfl
    rw [hsh, findBlockEnd_cons, ← hsh]
    have h1 : SEP_BTN.isPrefixOf (SEP_BTN ++ (attrs ++ (TAILQ ++ z))) = true :=
      isPrefixOf_append_self _ _
    have h2 : (SEP_BTN ++ (attrs ++ (TAILQ ++ z))).drop SEP_BTN.length
        = attrs ++ (TAILQ ++ z) := List.drop_left _ _
    have hsh2 : TAILQ ++ z = '>' :: (("Copy</button></pre>".data) ++ z) := rfl
    have h3 : (attrs ++ (TAILQ ++ z)).dropWhile (fun d => d != '>') = TAILQ ++ z := by
      rw [hsh2]
      exact dropWhile_append_stop _ attrs _ '>'
        (fun a hamem => by
          have := ha a hamem
          simp [this])
        (by simp)
    rw [h1, h2, h3, isPrefixOf_append_self]
    simp only [Bool.and_self, if_true]
    rw [List.drop_left]
  | cons c code ih =>
    have hsh : (c :: code) ++ (SEP_BTN ++ (attrs ++ (TAILQ ++ z)))
        = c :: (code ++ (SEP_BTN ++ (attrs ++ (TAILQ ++ z)))) := rfl
    rw [hsh, findBlockEnd_cons]
    have hfalse : SEP_BTN.isPrefixOf (c :: (code ++ (SEP_BTN ++ (attrs ++ (TAILQ ++ z)))))
        = false := by
      have h0 := hc 0 (by simp)
      rw [List.drop_zero] at h0
      have := isPrefixOf_false_continuation SEP_BTN (c :: code) (attrs ++ (TAILQ ++ z)) h0
      rw [List.cons_append] at this
      exact this
    rw [hfalse, Bool.false_and, if_neg (by simp)]
    have ihx : findBlockEnd (code ++ (SEP_BTN ++ (attrs ++ (TAILQ ++ z)))) = some (code, z) :=
      ih (fun j hj => by
        have := hc (j + 1) (by simp only [List.length_cons]; omega)
        rw [List.drop_succ_cons] at this
        exact this)
    rw [ihx]

/-- The scan of `transformMermaidBlocks` passes over text in which no
match can start. -/
theorem transform_append_text (t rest : List Char)
    (h : ∀ j, j < t.length → PRE_MERMAID.isPrefixOf (t.drop j ++ rest) = false) :
    transformMermaidBlocks (t ++ rest) = t ++ transformMermaidBlocks rest := by
  induction t with
  | nil => rw [List.nil_append, List.nil_append]
  | cons c t ih =>
    rw [List.cons_append]
    have h0 : PRE_MERMAID.isPrefixOf (c :: (t ++ rest)) = false := by
      have := h 0 (by simp)
      rw [List.drop_zero, List.cons_append] at this
      exact this
    rw [transform_cons_skip c (t ++ rest) (by rw [h0]; exact Bool.false_ne_true),
      ih (fun j hj => by
        have := h (j + 1) (by simp only [List.length_cons]; omega)
        rw [List.drop_succ_cons] at this
        exact this),
      List.cons_append]

/-- The scan of `transformMermaidBlocks` rewrites a block that starts
right at the current position. -/
theorem transform_block_start (y : List Char) (cr : List Char × List Char)
    (hf : findBlockEnd y = some cr) :
    transformMermaidBlocks (PRE_MERMAID ++ y)
      = toMermaidBlock cr.1 ++ transformMermaidBlocks cr.2 := by
  have hsh : PRE_MERMAID ++ y = '<' :: (("pre><code class=\"mermaid\">".data) ++ y) := rfl
  have hp : PRE_MERMAID.isPrefixOf ('<' :: (("pre><code class=\"mermaid\">".data) ++ y)) := by
    rw [← hsh]
    rw [isPrefixOf_append_self]
  have hdrop : ('<' :: (("pre><code class=\"mermaid\">".data) ++ y)).drop PRE_MERMAID.length
      = y := by
    rw [← hsh]
    exact List.drop_left _ _
  rw [hsh, transform_cons_match _ _ cr hp (by rw [hdrop]; exact hf)]

/-- One diagram-tagged code block as scanned by the locator:
opening literal, captured code, separator, attribute run, closing
literal. -/
structure Blk where
  code : List Char
  attrs : List Char
  post : List Char

/-- The raw markup of one block. -/
def mkBlock (b : Blk) : List Char :=
  PRE_MERMAID ++ (b.code ++ (SEP_BTN ++ (b.attrs ++ TAILQ)))

/-- A page assembled from leading text and a sequence of blocks, each
followed by its trailing text. -/
def assemble : List Char → List Blk → List Char
  | t0, [] => t0
  | t0, b :: bs => t0 ++ (mkBlock b ++ assemble b.post bs)

/-- The page after rewriting: each block replaced in place by its
mermaid wrapper, all text kept. -/
def rendered : List Char → List Blk → List Char
  | t0, [] => t0
  | t0, b :: bs => t0 ++ (toMermaidBlock b.code ++ rendered b.post bs)

/-- The conditions a well-formed page decomposition satisfies. -/
def blkOk (b : Blk) : Prop := codeOk b.code ∧ attrsOk b.attrs ∧ txtOk b.post

instance decCodeOk (code : List Char) : Decidable (codeOk code) :=
  inferInstanceAs (Decidable (∀ j < code.length,
    SEP_BTN.isPrefixOf (code.drop j ++ SEP_BTN) = false))

instance decAttrsOk (attrs : List Char) : Decidable (attrsOk attrs) :=
  inferInstanceAs (Decidable (∀ a ∈ attrs, a ≠ '>'))

instance decTxtOk (t : List Char) : Decidable (txtOk t) :=
  inferInstanceAs (Decidable (∀ j < t.length,
    PRE_MERMAID.isPrefixOf (t.drop j ++ PRE_MERMAID) = false))

instance decMbsOk (t : List Char) : Decidable (mbsOk t) :=
  inferInstanceAs (Decidable (∀ j < t.length,
    MERMAID_BLOCK_START.isPrefixOf (t.drop j ++ MERMAID_BLOCK_START) = false))

instance decBlkOk (b : Blk) : Decidable (blkOk b) :=
  inferInstanceAs (Decidable (codeOk b.code ∧ attrsOk b.attrs ∧ txtOk b.post))

/-- On a well-formed decomposition the scan rewrites exactly the
blocks: the transform of the assembly is the rendering. -/
theorem transform_assemble :
    ∀ (bs : List Blk) (t0 : List Char), txtOk t0 → (∀ b ∈ bs, blkOk b) →
      transformMermaidBlocks (assemble t0 bs) = rendered t0 bs := by
  intro bs
  induction bs with
  | nil =>
    intro t0 h0 _
    show transformMermaidBlocks t0 = t0
    have := transform_append_text t0 [] (fun j hj => by
      have hW := h0 j hj
      cases hP : PRE_MERMAID.isPrefixOf (t0.drop j ++ []) with
      | false => rfl
      | true =>
        rw [List.append_nil] at hP
        have := isPrefixOf_weaken PRE_MERMAID (t0.drop j) PRE_MERMAID hP
        rw [this] at hW
        exact absurd hW (by decide))
    rw [List.append_nil] at this
    rw [this, transform_nil, List.append_nil]
  | cons b bs ih =>
    intro t0 h0 hB
    show transformMermaidBlocks (t0 ++ (mkBlock b ++ assemble b.post bs))
      = t0 ++ (toMermaidBlock b.code ++ rendered b.post bs)
    obtain ⟨hcode, hattrs, hpost⟩ := hB b (List.mem_cons_self b bs)
    have step1 : transformMermaidBlocks (t0 ++ (mkBlock b ++ assemble b.post bs))
        = t0 ++ transformMermaidBlocks (mkBlock b ++ assemble b.post bs) := by
      apply transform_append_text
      intro j hj
      have h1 : PRE_MERMAID.isPrefixOf (t0.drop j ++ PRE_MERMAID) = false := h0 j hj
      have h2 := isPrefixOf_false_continuation PRE_MERMAID (t0.drop j)
        ((b.code ++ (SEP_BTN ++ (b.attrs ++ TAILQ))) ++ assemble b.post bs) h1
      rw [mkBlock, List.append_assoc]
      exact h2
    have step2 : transformMermaidBlocks (mkBlock b ++ assemble b.post bs)
        = toMermaidBlock b.code ++ transformMermaidBlocks (assemble b.post bs) := by
      have hsh : mkBlock b ++ assemble b.post bs
          = PRE_MERMAID ++ (b.code ++ (SEP_BTN ++ (b.attrs ++ (TAILQ ++ assemble b.post bs)))) := by
        rw [mkBlock]
        simp only [List.append_assoc]
      rw [hsh]
      exact transform_block_start _ (b.code, assemble b.post bs)
        (findBlockEnd_spec b.code b.attrs (assemble b.post bs) hcode hattrs)
    rw [step1, step2, ih b.post hpost (fun b' hb' => hB b' (List.mem_cons_of_mem b hb'))]

/-- The body of a rewritten block, as a function of the captured code. -/
def bodyOf (code : List Char) : List Char :=
  toMermaidBlockBody (trim (unescapeHtml code))
    (escapeHtml (trim (unescapeHtml code)))

/-- A rewritten block is the wrapper-opening literal followed by its
body. -/
theorem toMermaidBlock_eq (code : List Char) :
    toMermaidBlock code = MERMAID_BLOCK_START ++ bodyOf code := rfl

/-- The counting scan finds nothing in text free of pattern starts. -/
theorem countSub_eq_zero (pat : List Char) (_hne : pat ≠ []) :
    ∀ (s : List Char), (∀ j, j < s.length → pat.isPrefixOf (s.drop j) = false) →
      countSub pat s = 0 := by
  intro s
  induction s with
  | nil => intro _; exact countSub_nil pat
  | cons c rest ih =>
    intro h
    have h0 : pat.isPrefixOf (c :: rest) = false := by
      have := h 0 (by simp)
      rw [List.drop_zero] at this
      exact this
    rw [countSub_cons_skip pat c rest (by
        rintro ⟨-, hpre⟩
        rw [h0] at hpre
        exact absurd hpre (by decide)),
      ih (fun j hj => by
        have := h (j + 1) (by simp only [List.length_cons]; omega)
        rw [List.drop_succ_cons] at this
        exact this)]

/-- The counting scan passes over start-free text, counts the pattern
occurrence placed right after it, and continues beyond. -/
theorem countSub_append_match (pat : List Char) (hne : pat ≠ []) :
    ∀ (t z : List Char), (∀ j, j < t.length → pat.isPrefixOf (t.drop j ++ (pat ++ z)) = false) →
      countSub pat (t ++ (pat ++ z)) = 1 + countSub pat z := by
  intro t
  induction t with
  | nil =>
    intro z _
    rw [List.nil_append]
    cases hp : pat with
    | nil => exact absurd hp hne
    | cons p ps =>
      rw [← hp]
      have hsh : pat ++ z = p :: (ps ++ z) := by rw [hp]; rfl
      rw [hsh, countSub_cons_match pat p (ps ++ z) hne (by
          rw [← hsh]
          exact isPrefixOf_append_self _ _), ← hsh]
      congr 1
      rw [List.drop_left]
  | cons c t ih =>
    intro z h
    have h0 : pat.isPrefixOf (c :: (t ++ (pat ++ z))) = false := by
      have := h 0 (by simp)
      rw [List.drop_zero, List.cons_append] at this
      exact this
    rw [List.cons_append,
      countSub_cons_skip pat c (t ++ (pat ++ z)) (by
        rintro ⟨-, hpre⟩
        rw [h0] at hpre
        exact absurd hpre (by decide)),
      ih z (fun j hj => by
        have := h (j + 1) (by simp only [List.length_cons]; omega)
        rw [List.drop_succ_cons] at this
        exact this)]

/-- Prepending text to the leading segment of a rendering. -/
theorem rendered_append_front (bs : List Blk) (x p : List Char) :
    x ++ rendered p bs = rendered (x ++ p) bs := by
  cases bs with
  | nil => rfl
  | cons b bs =>
    show x ++ (p ++ (toMermaidBlock b.code ++ rendered b.post bs))
      = (x ++ p) ++ (toMermaidBlock b.code ++ rendered b.post bs)
    rw [List.append_assoc]

/-- On a rendering whose text segments are free of wrapper-literal
starts the counting scan finds exactly one wrapper per block. -/
theorem count_rendered :
    ∀ (bs : List Blk) (u : List Char), mbsOk u →
      (∀ b ∈ bs, mbsOk (bodyOf b.code ++ b.post)) →
      countSub MERMAID_BLOCK_START (rendered u bs) = bs.length := by
  intro bs
  induction bs with
  | nil =>
    intro u hu _
    show countSub MERMAID_BLOCK_START u = 0
    apply countSub_eq_zero MERMAID_BLOCK_START (by decide)
    intro j hj
    cases hP : MERMAID_BLOCK_START.isPrefixOf (u.drop j) with
    | false => rfl
    | true =>
      have := isPrefixOf_weaken MERMAID_BLOCK_START (u.drop j) MERMAID_BLOCK_START hP
      rw [hu j hj] at this
      exact absurd this (by decide)
  | cons b bs ih =>
    intro u hu hB
    show countSub MERMAID_BLOCK_START (u ++ (toMermaidBlock b.code ++ rendered b.post bs))
      = bs.length + 1
    have hsh : u ++ (toMermaidBlock b.code ++ rendered b.post bs)
        = u ++ (MERMAID_BLOCK_START ++ (bodyOf b.code ++ rendered b.post bs)) := by
      rw [toMermaidBlock_eq, List.append_assoc]
    rw [hsh, countSub_append_match MERMAID_BLOCK_START (by decide) u _ (fun j hj => by
      exact isPrefixOf_false_continuation MERMAID_BLOCK_START (u.drop j)
        (bodyOf b.code ++ rendered b.post bs) (hu j hj))]
    rw [rendered_append_front bs (bodyOf b.code) b.post,
      ih (bodyOf b.code ++ b.post) (hB b (List.mem_cons_self b bs))
        (fun b' hb' => hB b' (List.mem_cons_of_mem b hb'))]
    omega

/-- C6.  A page assembled from `N` well-formed diagram-tagged code
blocks interspersed with non-diagram text is rewritten in place:
the output is the same text with each block span — copy-button
affordance included — replaced by its mermaid wrapper, and, when no
text or rewritten body accidentally contains the wrapper literal, the
output contains exactly `N` wrapper-opening strings. -/
theorem transform_n_blocks (t0 : List Char) (bs : List Blk)
    (h0 : txtOk t0) (hB : ∀ b ∈ bs, blkOk b)
    (hm0 : mbsOk t0) (hmB : ∀ b ∈ bs, mbsOk (bodyOf b.code ++ b.post)) :
    transformMermaidBlocks (assemble t0 bs) = rendered t0 bs
    ∧ countSub MERMAID_BLOCK_START (transformMermaidBlocks (assemble t0 bs)) = bs.length := by
  have he := transform_assemble bs t0 h0 hB
  exact ⟨he, by rw [he]; exact count_rendered bs t0 hm0 hmB⟩

/-- Closed instance of C6: two blocks with ordinary surrounding
markup produce exactly two wrappers, in place. -/
theorem transform_n_blocks_witness :
    (txtOk ("<h1>Doc</h1>\n".data)
      ∧ (∀ b ∈ [Blk.mk ("graph TD".data) (" type=\"button\"".data) ("\n<p>Some text</p>\n".data),
            Blk.mk ("sequenceDiagram".data) ([]) ("\n</body>".data)], blkOk b)
      ∧ mbsOk ("<h1>Doc</h1>\n".data)
      ∧ (∀ b ∈ [Blk.mk ("graph TD".data) (" type=\"button\"".data) ("\n<p>Some text</p>\n".data),
            Blk.mk ("sequenceDiagram".data) ([]) ("\n</body>".data)],
          mbsOk (bodyOf b.code ++ b.post)))
    ∧ transformMermaidBlocks
        (assemble ("<h1>Doc</h1>\n".data)
          [Blk.mk ("graph TD".data) (" type=\"button\"".data) ("\n<p>Some text</p>\n".data),
            Blk.mk ("sequenceDiagram".data) ([]) ("\n</body>".data)])
        = rendered ("<h1>Doc</h1>\n".data)
          [Blk.mk ("graph TD".data) (" type=\"button\"".data) ("\n<p>Some text</p>\n".data),
            Blk.mk ("sequenceDiagram".data) ([]) ("\n</body>".data)]
    ∧ countSub MERMAID_BLOCK_START
        (transformMermaidBlocks
          (assemble ("<h1>Doc</h1>\n".data)
            [Blk.mk ("graph TD".data) (" type=\"button\"".data) ("\n<p>Some text</p>\n".data),
              Blk.mk ("sequenceDiagram".data) ([]) ("\n</body>".data)]))
        = 2 := by
  refine ⟨⟨by decide, by decide, by decide, by decide⟩, ?_⟩
  exact transform_n_blocks ("<h1>Doc</h1>\n".data) _ (by decide) (by decide) (by decide) (by decide)

/-! ### Claim C7: style/script injection placement -/

/-- What `firstIdx` returns is an occurrence within bounds. -/
theorem firstIdx_spec (pat : List Char) :
    ∀ (s : List Char) (i : Nat), firstIdx pat s = some i →
      pat.isPrefixOf (s.drop i) = true ∧ i ≤ s.length := by
  intro s
  induction s with
  | nil =>
    intro i h
    by_cases hp : pat.isEmpty
    · rw [firstIdx, if_pos hp] at h
      cases h
      constructor
      · cases pat with
        | nil => rfl
        | cons a l => exact absurd hp (by simp)
      · exact Nat.le_refl 0
    · rw [firstIdx, if_neg hp] at h
      exact absurd h (by simp)
  | cons c rest ih =>
    intro i h
    by_cases hp : pat.isPrefixOf (c :: rest)
    · rw [firstIdx, if_pos hp] at h
      cases h
      exact ⟨hp, by simp⟩
    · rw [firstIdx, if_neg hp] at h
      cases hfe : firstIdx pat rest with
      | none => rw [hfe] at h; exact absurd h (by simp)
      | some i' =>
        rw [hfe] at h
        cases h
        obtain ⟨h1, h2⟩ := ih i' hfe
        exact ⟨by rw [List.drop_succ_cons]; exact h1,
          by simp only [List.length_cons]; omega⟩

/-- What `lastIdx` returns is an occurrence within bounds. -/
theorem lastIdx_spec (pat : List Char) :
    ∀ (s : List Char) (j : Nat), lastIdx pat s = some j →
      pat.isPrefixOf (s.drop j) = true ∧ j ≤ s.length := by
  intro s
  induction s with
  | nil =>
    intro j h
    by_cases hp : pat.isEmpty
    · rw [lastIdx, if_pos hp] at h
      cases h
      constructor
      · cases pat with
        | nil => rfl
        | cons a l => exact absurd hp (by simp)
      · exact Nat.le_refl 0
    · rw [lastIdx, if_neg hp] at h
      exact absurd h (by simp)
  | cons c rest ih =>
    intro j h
    rw [lastIdx] at h
    cases hfe : lastIdx pat rest with
    | some j' =>
      rw [hfe] at h
      cases h
      obtain ⟨h1, h2⟩ := ih j' hfe
      exact ⟨by rw [List.drop_succ_cons]; exact h1,
        by simp only [List.length_cons]; omega⟩
    | none =>
      rw [hfe] at h
      by_cases hp : pat.isPrefixOf (c :: rest)
      · rw [if_pos hp] at h
        cases h
        exact ⟨hp, by simp⟩
      · rw [if_neg hp] at h
        exact absurd h (by simp)

/-- A prefix match survives truncation beyond the pattern. -/
theorem isPrefixOf_take (pat l : List Char) (n : Nat)
    (h : pat.isPrefixOf l = true) (hn : pat.length ≤ n) :
    pat.isPrefixOf (l.take n) = true := by
  rw [List.isPrefixOf_iff_prefix] at h ⊢
  have h1 := List.prefix_iff_eq_take.mp h
  apply List.prefix_iff_eq_take.mpr
  rw [List.take_take, Nat.min_eq_left hn]
  exact h1

/-- C7 (amended).  The page processor leaves a page without the
wrapper literal untouched; on a page holding the wrapper literal,
whose transform has a `</head>` and after it a last `</body>`, the
output decomposes into text, the stylesheet immediately before that
`</head>`, text, and the script immediately before that `</body>`. -/
theorem processMermaidPage_inject_spec (html : List Char) (options : MermaidScriptOptions) :
    (containsSub MERMAID_BLOCK_START (transformMermaidBlocks html) = false →
      processMermaidPage html options = transformMermaidBlocks html)
    ∧ (∀ i j,
        containsSub MERMAID_BLOCK_START (transformMermaidBlocks html) = true →
        firstIdx HEAD_END (transformMermaidBlocks html) = some i →
        lastIdx BODY_END
          ((transformMermaidBlocks html).take i ++ styleText
            ++ (transformMermaidBlocks html).drop i) = some j →
        i + styleText.length + HEAD_END.length ≤ j →
        ∃ a b c, processMermaidPage html options
            = a ++ (styleText ++ (b ++ (getScript options ++ c)))
          ∧ HEAD_END.isPrefixOf b = true
          ∧ BODY_END.isPrefixOf c = true) := by
  constructor
  · intro hm
    rw [processMermaidPage, if_neg (by rw [hm]; exact Bool.false_ne_true)]
  · intro i j hm hfi hli harith
    obtain ⟨hihead, hile⟩ := firstIdx_spec HEAD_END _ i hfi
    obtain ⟨hjbody, hjle⟩ := lastIdx_spec BODY_END _ j hli
    have hout : processMermaidPage html options
        = ((transformMermaidBlocks html).take i ++ styleText
            ++ (transformMermaidBlocks html).drop i).take j
          ++ getScript options
          ++ ((transformMermaidBlocks html).take i ++ styleText
            ++ (transformMermaidBlocks html).drop i).drop j := by
      rw [processMermaidPage, if_pos hm]
      simp only [hfi, hli]
    set h := transformMermaidBlocks html with hh
    have hitake : (h.take i).length = i := by
      rw [List.length_take]
      omega
    have htake : (h.take i ++ styleText ++ h.drop i).take j
        = h.take i ++ (styleText
          ++ (h.drop i).take (j - i - styleText.length)) := by
      rw [List.append_assoc, List.take_append_eq_append_take]
      have e1 : List.take j (List.take i h) = List.take i h :=
        List.take_of_length_le (by rw [hitake]; omega)
      rw [e1, hitake, List.take_append_eq_append_take]
      have e2 : List.take (j - i) styleText = styleText :=
        List.take_of_length_le (by omega)
      rw [e2]
    have hdrop : (h.take i ++ styleText ++ h.drop i).drop j
        = (h.drop i).drop (j - i - styleText.length) := by
      rw [List.append_assoc, List.drop_append_eq_append_drop]
      have e1 : List.drop j (List.take i h) = [] :=
        List.drop_eq_nil_of_le (by rw [hitake]; omega)
      rw [e1, hitake, List.nil_append, List.drop_append_eq_append_drop]
      have e2 : List.drop (j - i) styleText = [] :=
        List.drop_eq_nil_of_le (by omega)
      rw [e2, List.nil_append]
    refine ⟨h.take i, (h.drop i).take (j - i - styleText.length),
      (h.drop i).drop (j - i - styleText.length), ?_, ?_, ?_⟩
    · rw [hout, htake, hdrop]
      simp only [List.append_assoc]
    · exact isPrefixOf_take HEAD_END (h.drop i) _ hihead (by omega)
    · have := hjbody
      rw [hdrop] at this
      exact this

/-- CDN-mode options as used throughout the pages of a build. -/
def cdnOptions : MermaidScriptOptions :=
  { cdnUrl := DEFAULT_CDN_URL
    localPath := "./assets/mermaid/mermaid.esm.min.mjs".data
    source := .cdn }

/-- A page that already contains the wrapper-literal text but no
diagram-tagged code block. -/
def strayMarkerPage : List Char :=
  "<html><head></head><body><div class=\"mermaid-block\">x</div></body></html>".data

/-- C7 (counterexample).  On `strayMarkerPage` no block matches — the
transform is the identity, zero blocks are rewritten — yet the page
processor still injects the stylesheet and the script, so the page is
not returned unchanged: injection is keyed on the wrapper literal, not
on a rewrite having happened. -/
theorem inject_without_rewrite_counterexample :
    hasMermaidBlock strayMarkerPage = false
    ∧ transformMermaidBlocks strayMarkerPage = strayMarkerPage
    ∧ processMermaidPage strayMarkerPage cdnOptions ≠ strayMarkerPage
    ∧ containsSub ("<style>".data) (processMermaidPage strayMarkerPage cdnOptions) = true :=
  ⟨by decide, by decide, by decide, by decide⟩

/-- A minimal page with one diagram block, for instantiating C7. -/
def oneBlockPage : List Char :=
  "<html><head><title>T</title></head><body>\n<pre><code class=\"mermaid\">graph TD</code><button>Copy</button></pre>\n</body></html>".data

/-- Closed instance of the amended C7 on `oneBlockPage`: the first
`</head>` of the transform sits at index 28, the last `</body>` of the
style-augmented transform at index 923, and the processor emits the
stylesheet immediately before the former and the script immediately
before the latter. -/
theorem processMermaidPage_inject_spec_witness :
    containsSub MERMAID_BLOCK_START (transformMermaidBlocks oneBlockPage) = true
    ∧ (∃ a b c, processMermaidPage oneBlockPage cdnOptions
          = a ++ (styleText ++ (b ++ (getScript cdnOptions ++ c)))
        ∧ HEAD_END.isPrefixOf b = true
        ∧ BODY_END.isPrefixOf c = true) :=
  ⟨by decide,
    (processMermaidPage_inject_spec oneBlockPage cdnOptions).2 28 923
      (by decide) (by decide) (by decide) (by decide)⟩

/-! ### Claims C1 and C2: the v0.2.0 entity handling -/

/-- Modelled from the spec: the simulated browser decode of a markup
text node, an external collaborator of the pipeline — the five
character references produced by the host's escaping are decoded back
to their glyphs (`&amp;` last, so a single well-formed reference
decodes exactly once).  Mermaid's private `#entity;` markers are not
markup and pass through a browser untouched. -/
def browserTextDecode (s : List Char) : List Char :=
  replaceAll E_AMP S_AMP
    (replaceAll E_APOS S_APOS
      (replaceAll E_QUOT S_QUOT
        (replaceAll E_GT S_GT
          (replaceAll E_LT S_LT s))))

/-- The page of the end-to-end scenario: a diagram whose source mixes
a generic-type label with mermaid arrow syntax. -/
def arrowPage : List Char :=
  "<html><head></head><body>\n<pre><code class=\"mermaid\">A[List&lt;int&gt;] --&gt; B</code><button type=\"button\">Copy</button></pre>\n</body></html>".data

/-- The markup-escaped diagram source captured from `arrowPage`. -/
def arrowEscaped : List Char := "A[List&lt;int&gt;] --&gt; B".data

/-- The text the pipeline actually places into the mermaid divs for
`arrowEscaped`. -/
def arrowDivText : List Char := "A[List#lt;int#gt;] --#gt; B".data

/-- C1 (evaluation at the failing input).  The full pipeline turns the
`A[List&lt;int&gt;] --&gt; B` block into mermaid divs holding
`A[List#lt;int#gt;] --#gt; B`.  No raw `<int>` ever appears in the
emitted page — that half of the claim holds — but a simulated browser
decode leaves the `#gt;` markers in place, so the text mermaid
receives contains no `-->` arrow token anywhere: the diagram-consumer-
visible text is not recognizable as `A[List<int>] --> B`. -/
theorem arrow_entity_code_bug :
    containsSub (("%%\n".data) ++ arrowDivText ++ DIV_CLOSE)
        (processMermaidPage arrowPage cdnOptions) = true
    ∧ containsSub ("<int>".data) (processMermaidPage arrowPage cdnOptions) = false
    ∧ browserTextDecode arrowDivText = arrowDivText
    ∧ containsSub ("-->".data) (browserTextDecode arrowDivText) = false
    ∧ containsSub ("-->".data) (processMermaidPage arrowPage cdnOptions) = false :=
  ⟨by decide, by decide, by decide, by decide, by decide⟩

/-- C2 (evaluation at the failing input).  The fallback code element
built for `arrowEscaped` shows the diagram-library-escaped form: after
a browser decode of its text the reader still sees the marker tokens
`#lt;`, `#gt;` instead of the authored glyphs `<`, `>`, and the
human-readable markup-escaped form `A[List&lt;int&gt;] --&gt; B` is
nowhere in the fallback element. -/
theorem fallback_marker_code_bug :
    containsSub (FALLBACK_OPEN ++ arrowDivText ++ FALLBACK_CLOSE)
        (toMermaidBlock arrowEscaped) = true
    ∧ browserTextDecode arrowDivText = arrowDivText
    ∧ containsSub ("#lt;".data) (browserTextDecode arrowDivText) = true
    ∧ ('<' ∈ browserTextDecode arrowDivText) = False
    ∧ containsSub (FALLBACK_OPEN ++ ("A[List&lt;int&gt;] --&gt; B".data))
        (toMermaidBlock arrowEscaped) = false := by
  refine ⟨by decide, by decide, by decide, ?_, by decide⟩
  simp only [eq_iff_iff, iff_false]
  decide

/-! ### Claim C8: relative asset paths -/

/-- C8.  The asset path for the root page uses the same-directory
prefix, each further path segment adds one parent-directory step, the
produced path always ends in the fixed entry-point filename, and the
result depends only on the segment depth of the page URL. -/
theorem relative_asset_path_spec :
    getRelativeAssetPath ("index.html".data) = "./assets/mermaid/mermaid.esm.min.mjs".data
    ∧ getRelativeAssetPath ("a/b.html".data) = "../assets/mermaid/mermaid.esm.min.mjs".data
    ∧ getRelativeAssetPath ("a/b/c.html".data)
        = "../../assets/mermaid/mermaid.esm.min.mjs".data
    ∧ (∀ url : List Char, MERMAID_ESM_ENTRY <:+ getRelativeAssetPath url)
    ∧ (∀ u v : List Char, (u.splitOn '/').length = (v.splitOn '/').length →
        getRelativeAssetPath u = getRelativeAssetPath v) := by
  refine ⟨by decide, by decide, by decide, ?_, ?_⟩
  · intro url
    rw [getRelativeAssetPath]
    exact ⟨_, by rw [List.append_assoc]⟩
  · intro u v huv
    rw [getRelativeAssetPath, getRelativeAssetPath, huv]

/-- Closed instance of C8: two distinct one-segment-deep URLs get the
same relative asset path. -/
theorem relative_asset_path_spec_witness :
    ((("x/y.html".data).splitOn '/').length = (("a/b.html".data).splitOn '/').length)
    ∧ getRelativeAssetPath ("x/y.html".data) = getRelativeAssetPath ("a/b.html".data) :=
  ⟨by decide, relative_asset_path_spec.2.2.2.2 ("x/y.html".data) ("a/b.html".data) (by decide)⟩

/-! ### Claim C9: resolving mermaid's dist directory -/

/-- An error thrown by Node's `require.resolve`: its `code` property
(absent on plain errors) and its string rendering, as interpolated by
the template literals in the source. -/
structure NodeErr where
  code : Option (List Char)
  errText : List Char
deriving DecidableEq

/-- The source's test
`code === 'MODULE_NOT_FOUND' || code === 'ERR_MODULE_NOT_FOUND'`. -/
def isModuleNotFound (e : NodeErr) : Bool :=
  e.code == some ("MODULE_NOT_FOUND".data) || e.code == some ("ERR_MODULE_NOT_FOUND".data)

/-- The module-resolution environment `resolveMermaidDistPath` runs
against: the outcome of `require.resolve('mermaid/package.json')` and,
per path, of `require.resolve(esmEntry)`. -/
structure RequireEnv where
  resolvePkg : Except NodeErr (List Char)
  resolveFile : List Char → Except NodeErr (List Char)

/-- Node's `path.dirname` (normalization of exotic inputs elided):
everything before the last separator. -/
def dirname (p : List Char) : List Char :=
  match lastIdx ("/".data) p with
  | some j => p.take j
  | none => ".".data

/-- Node's `path.join` on two segments (normalization elided). -/
def pathJoin (a b : List Char) : List Char := a ++ ("/".data) ++ b

/-- Result of attempting to resolve mermaid's dist path
(`MermaidResolutionResult` in the source: the `ok` discriminant
becomes the constructor). -/
inductive MermaidResolutionResult where
  | ok (distPath : List Char)
  | err (error : List Char)
deriving DecidableEq

/-- Attempt to resolve the path to the mermaid dist directory
(`resolveMermaidDistPath` in the source), over an explicit
module-resolution environment. -/
def resolveMermaidDistPath (env : RequireEnv) : MermaidResolutionResult :=
  match env.resolvePkg with
  | .error e =>
    if isModuleNotFound e then
      .err ("mermaid package not found. Install it with: npm install mermaid -D".data)
    else
      .err (("Failed to resolve mermaid package: ".data) ++ e.errText)
  | .ok mermaidPkg =>
    let distPath := pathJoin (dirname mermaidPkg) ("dist".data)
    let esmEntry := pathJoin distPath MERMAID_ESM_ENTRY
    match env.resolveFile esmEntry with
    | .error e =>
      if isModuleNotFound e then
        .err (("mermaid package found but ESM entry point missing at ".data)
          ++ esmEntry ++ (". Ensure you have mermaid >= 11.0.0 installed.".data))
      else
        .err (("Failed to verify mermaid ESM entry point at ".data)
          ++ esmEntry ++ (": ".data) ++ e.errText)
    | .ok _ => .ok distPath

/-- C9 (amended).  The two specified diagnostic shapes and the success
shape: an unresolvable package with a module-not-found code yields the
install instruction; a resolvable package whose ESM entry is missing
with a module-not-found code yields the distinct message naming the
minimum version `11.0.0`; two successful resolutions yield the dist
directory next to the resolved package file.  (Resolution errors with
any other code produce further, generic diagnostics — see the
counterexample — so these two failure shapes are not the only ones.) -/
theorem resolve_dist_path_spec (env : RequireEnv) :
    (∀ e, env.resolvePkg = .error e → isModuleNotFound e = true →
      resolveMermaidDistPath env
        = .err ("mermaid package not found. Install it with: npm install mermaid -D".data))
    ∧ (∀ pkg e, env.resolvePkg = .ok pkg →
        env.resolveFile (pathJoin (pathJoin (dirname pkg) ("dist".data)) MERMAID_ESM_ENTRY)
          = .error e →
        isModuleNotFound e = true →
        resolveMermaidDistPath env
          = .err (("mermaid package found but ESM entry point missing at ".data)
              ++ pathJoin (pathJoin (dirname pkg) ("dist".data)) MERMAID_ESM_ENTRY
              ++ (". Ensure you have mermaid >= 11.0.0 installed.".data)))
    ∧ (∀ pkg v, env.resolvePkg = .ok pkg →
        env.resolveFile (pathJoin (pathJoin (dirname pkg) ("dist".data)) MERMAID_ESM_ENTRY)
          = .ok v →
        resolveMermaidDistPath env = .ok (pathJoin (dirname pkg) ("dist".data))) := by
  refine ⟨?_, ?_, ?_⟩
  · intro e he hnf
    rw [resolveMermaidDistPath, he]
    simp only [hnf, if_true]
  · intro pkg e hpkg hfile hnf
    rw [resolveMermaidDistPath, hpkg]
    simp only [hfile, hnf, if_true]
  · intro pkg v hpkg hfile
    rw [resolveMermaidDistPath, hpkg]
    simp only [hfile]

/-- An environment in which `require.resolve` fails with a code other
than module-not-found (for example a permission error). -/
def badEnv : RequireEnv :=
  { resolvePkg := .error ⟨none, "EACCES: permission denied".data⟩
    resolveFile := fun _ => .ok [] }

/-- C9 (counterexample).  On `badEnv` the resolver reports a third
diagnostic shape: a failure whose message neither instructs
installation nor names the minimum required version — so the failure
diagnostics do not come in exactly two shapes. -/
theorem resolve_generic_error_counterexample :
    resolveMermaidDistPath badEnv
      = .err ("Failed to resolve mermaid package: EACCES: permission denied".data)
    ∧ containsSub ("npm install".data)
        ("Failed to resolve mermaid package: EACCES: permission denied".data) = false
    ∧ containsSub ("11.0.0".data)
        ("Failed to resolve mermaid package: EACCES: permission denied".data) = false :=
  ⟨by decide, by decide, by decide⟩

/-- An environment in which the mermaid package is absent. -/
def absentEnv : RequireEnv :=
  { resolvePkg := .error ⟨some ("MODULE_NOT_FOUND".data), "Error: Cannot find module".data⟩
    resolveFile := fun _ => .ok [] }

/-- An environment in which both resolutions succeed. -/
def goodEnv : RequireEnv :=
  { resolvePkg := .ok ("/proj/node_modules/mermaid/package.json".data)
    resolveFile := fun _ => .ok ("resolved".data) }

/-- Closed instance of the amended C9: the absent-package environment
produces the install instruction, and the successful environment
produces the dist path next to the package file. -/
theorem resolve_dist_path_spec_witness :
    resolveMermaidDistPath absentEnv
      = .err ("mermaid package not found. Install it with: npm install mermaid -D".data)
    ∧ resolveMermaidDistPath goodEnv = .ok ("/proj/node_modules/mermaid/dist".data) := by
  constructor
  · exact (resolve_dist_path_spec absentEnv).1
      ⟨some ("MODULE_NOT_FOUND".data), "Error: Cannot find module".data⟩ rfl (by decide)
  · have h := (resolve_dist_path_spec goodEnv).2.2
      ("/proj/node_modules/mermaid/package.json".data) ("resolved".data) rfl rfl
    rw [h]
    decide

/-! ### Claim C10: the render-begin handler -/

/-- The two pieces of per-cycle plugin state owned by `load`. -/
structure PluginState where
  needsMermaidCopy : Bool
  mermaidResolution : Option MermaidResolutionResult
deriving DecidableEq

/-- The diagnostic prefix of every plugin error message. -/
def PLUGIN_TAG : List Char := "[typedoc-plugin-mermaid] ".data

/-- The `Renderer.EVENT_BEGIN` handler installed by `load`: reset the
per-cycle state, then in local mode resolve mermaid and throw — the
second component carries the thrown message — when resolution fails.
The incoming state is ignored: the handler overwrites both fields. -/
def onRenderBegin (source : MermaidSource) (env : RequireEnv) (_st : PluginState) :
    PluginState × Option (List Char) :=
  let st0 : PluginState := { needsMermaidCopy := false, mermaidResolution := none }
  match source with
  | .localMode =>
    let res := resolveMermaidDistPath env
    let st1 : PluginState := { st0 with mermaidResolution := some res }
    match res with
    | .err m => (st1, some (PLUGIN_TAG ++ m))
    | .ok _ => (st1, none)
  | .cdn => (st0, none)

/-- C10.  At render-cycle start the handler resets the needs-copy flag
and the cached resolution independently of the previous state; in cdn
mode it caches nothing and never raises; in local mode it caches the
fresh resolution result and raises — with the tagged resolution
message — exactly when resolution failed. -/
theorem render_begin_spec (source : MermaidSource) (env : RequireEnv) (st : PluginState) :
    (onRenderBegin source env st).1.needsMermaidCopy = false
    ∧ (∀ st', onRenderBegin source env st' = onRenderBegin source env st)
    ∧ (source = .cdn →
        (onRenderBegin source env st).1.mermaidResolution = none
        ∧ (onRenderBegin source env st).2 = none)
    ∧ (source = .localMode →
        (onRenderBegin source env st).1.mermaidResolution
          = some (resolveMermaidDistPath env))
    ∧ (∀ m, source = .localMode → resolveMermaidDistPath env = .err m →
        (onRenderBegin source env st).2 = some (PLUGIN_TAG ++ m))
    ∧ (∀ d, source = .localMode → resolveMermaidDistPath env = .ok d →
        (onRenderBegin source env st).2 = none) := by
  cases source with
  | cdn =>
    refine ⟨rfl, fun st' => rfl, fun _ => ⟨rfl, rfl⟩, ?_, ?_, ?_⟩
    · intro h
      exact absurd h (by decide)
    · intro m h
      exact absurd h (by decide)
    · intro d h
      exact absurd h (by decide)
  | localMode =>
    refine ⟨?_, ?_, ?_, ?_, ?_, ?_⟩
    · show (match resolveMermaidDistPath env with
        | .err m => ((⟨false, some (resolveMermaidDistPath env)⟩ : PluginState),
            some (PLUGIN_TAG ++ m))
        | .ok d => ((⟨false, some (resolveMermaidDistPath env)⟩ : PluginState),
            none)).1.needsMermaidCopy = false
      cases resolveMermaidDistPath env <;> rfl
    · intro st'
      rfl
    · intro h
      exact absurd h (by decide)
    · intro _
      show (match resolveMermaidDistPath env with
        | .err m => ((⟨false, some (resolveMermaidDistPath env)⟩ : PluginState),
            some (PLUGIN_TAG ++ m))
        | .ok d => ((⟨false, some (resolveMermaidDistPath env)⟩ : PluginState),
            none)).1.mermaidResolution = some (resolveMermaidDistPath env)
      cases resolveMermaidDistPath env <;> rfl
    · intro m _ hres
      show (match resolveMermaidDistPath env with
        | .err m => ((⟨false, some (resolveMermaidDistPath env)⟩ : PluginState),
            some (PLUGIN_TAG ++ m))
        | .ok d => ((⟨false, some (resolveMermaidDistPath env)⟩ : PluginState),
            none)).2 = some (PLUGIN_TAG ++ m)
      rw [hres]
    · intro d _ hres
      show (match resolveMermaidDistPath env with
        | .err m => ((⟨false, some (resolveMermaidDistPath env)⟩ : PluginState),
            some (PLUGIN_TAG ++ m))
        | .ok x => ((⟨false, some (resolveMermaidDistPath env)⟩ : PluginState),
            none)).2 = none
      rw [hres]

/-- Closed instance of C10: with the mermaid package absent in local
mode the handler raises the tagged install-instruction message while
the state has been reset, and in cdn mode against the same failing
environment it does not raise. -/
theorem render_begin_spec_witness :
    (onRenderBegin .localMode absentEnv
        ⟨true, some (.ok ("stale".data))⟩).1.needsMermaidCopy = false
    ∧ (onRenderBegin .localMode absentEnv ⟨true, some (.ok ("stale".data))⟩).2
        = some (PLUGIN_TAG
          ++ ("mermaid package not found. Install it with: npm install mermaid -D".data))
    ∧ (onRenderBegin .cdn absentEnv ⟨true, some (.ok ("stale".data))⟩).2 = none := by
  refine ⟨(render_begin_spec .localMode absentEnv ⟨true, some (.ok ("stale".data))⟩).1, ?_, ?_⟩
  · exact (render_begin_spec .localMode absentEnv ⟨true, some (.ok ("stale".data))⟩).2.2.2.2.1
      ("mermaid package not found. Install it with: npm install mermaid -D".data) rfl (by decide)
  · exact ((render_begin_spec .cdn absentEnv ⟨true, some (.ok ("stale".data))⟩).2.2.1 rfl).2

end TypedocMermaid
